import Mathlib

/-!
Verification of the stock-allocation / order-checkout core of the
`backend_prime_top` repository (Django views `orders.py`, `cart.py`,
helpers in `utils.py`).

The embedding is shallow: each Django model row becomes a Lean structure,
the database becomes explicit lists of rows threaded through the
operations, and the float-valued stock quantities (`FloatField`) are
modelled as exact rationals.  `transaction.atomic` together with
`transaction.set_rollback(True)` is modelled by having the transaction
body return, besides the new database state, a rollback flag; the
committed state is the original one whenever the flag is set.
-/

/-- One row of the `stocks` table (model class `Stocks`): a quantity of
one product series, owned either by one client (`client = some c`) or
public (`client = none`). -/
structure Stocks where
  stocks_id : Nat
  client : Option Nat
  series : Option Nat
  stocks_is_reserved_for_client : Bool
  stocks_count : ℚ
  stocks_update_at : Nat
deriving DecidableEq, Repr

/-- Sum of the `stocks_count` column over a list of stock rows, the
aggregate `Coalesce(Sum("stocks_count"), 0.0)` of the views. -/
def sumCount (l : List Stocks) : ℚ :=
  (l.map (·.stocks_count)).sum

/-- `Stocks.objects.filter(series=series, client=client, stocks_count__gt=0)`:
the client-owned candidate rows for one series. -/
def clientStocks (led : List Stocks) (s c : Nat) : List Stocks :=
  led.filter (fun r => decide (r.series = some s ∧ r.client = some c ∧ 0 < r.stocks_count))

/-- `Stocks.objects.filter(series=series, client__isnull=True, stocks_count__gt=0)`:
the public candidate rows for one series. -/
def publicStocks (led : List Stocks) (s : Nat) : List Stocks :=
  led.filter (fun r => decide (r.series = some s ∧ r.client = none ∧ 0 < r.stocks_count))

/-- The greedy draw-down loop (`for stock_record in stocks_records` in
`orders_view` / `cart_checkout_view`): walk the candidate rows, deduct
`min(remaining_quantity, available_in_record)` from each positive row,
stop (`break`) once the remaining request is no longer positive, skip
(`continue`) non-positive rows.  Returns the final remaining request and
the row list with the touched rows updated (`stocks_update_at = now`). -/
def drawDown (now : Nat) : ℚ → List Stocks → ℚ × List Stocks
  | rem, [] => (rem, [])
  | rem, r :: rs =>
    if rem ≤ 0 then
      (rem, r :: rs)
    else if r.stocks_count ≤ 0 then
      let res := drawDown now rem rs
      (res.1, r :: res.2)
    else
      let d := min rem r.stocks_count
      let res := drawDown now (rem - d) rs
      (res.1, { r with stocks_count := r.stocks_count - d, stocks_update_at := now } :: res.2)

/-- The data carried by the "Insufficient stock" error response of the
views: series id, requested quantity and total available quantity. -/
structure InsufficientStock where
  series_id : Nat
  requested : ℚ
  available : ℚ
deriving DecidableEq, Repr

/-- Persisting the updated rows back into the ledger: each touched row is
saved individually by primary key (`stock_record.save(...)`), so the new
ledger maps every row to its updated version when one exists. -/
def writeBack (led upd : List Stocks) : List Stocks :=
  led.map (fun r => (upd.find? (fun u => u.stocks_id == r.stocks_id)).getD r)

/-- The allocation step of `orders_view` / `cart_checkout_view` for one
order line (series `s`, requested quantity `q`, ordering client `c`):
build the two candidate pools, aggregate their totals, fail with the
insufficient-stock data when `total_available < q`, otherwise run the
greedy draw-down over client rows followed by public rows and persist
the touched rows. -/
def allocate (led : List Stocks) (c s : Nat) (q : ℚ) (now : Nat) :
    Except InsufficientStock (List Stocks) :=
  let cs := clientStocks led s c
  let ps := publicStocks led s
  let client_total := sumCount cs
  let public_total := sumCount ps
  let total_available := client_total + public_total
  if total_available < q then
    .error ⟨s, q, total_available⟩
  else
    .ok (writeBack led (drawDown now q (cs ++ ps)).2)

/-- Total ledger quantity recorded for one series: the sum of
`stocks_count` over all rows of that series. -/
def seriesTotal (led : List Stocks) (s : Nat) : ℚ :=
  ((led.filter (fun r => decide (r.series = some s))).map (·.stocks_count)).sum

/-- The ledger rows outside the candidate pool of an allocation for
series `s` by client `c`: rows that are in neither filter. -/
def otherRows (led : List Stocks) (s c : Nat) : List Stocks :=
  led.filter (fun r =>
    !(decide (r.series = some s ∧ r.client = some c ∧ 0 < r.stocks_count) ||
      decide (r.series = some s ∧ r.client = none ∧ 0 < r.stocks_count)))

/-- One row of the `series` table: a production batch of one product
(`product_id` is the owning product). -/
structure Series where
  series_id : Nat
  product_id : Nat
deriving DecidableEq, Repr

/-- One row of the `orders` table (model class `Orders`). -/
structure Orders where
  orders_id : Nat
  client : Nat
  orders_status : String
  orders_created_at : Nat
  orders_shipped_at : Option Nat
  orders_delivered_at : Option Nat
  orders_cancel_reason : Option String
deriving DecidableEq, Repr

/-- One row of the `orders_items` table (model class `OrdersItems`). -/
structure OrdersItems where
  order_items_id : Nat
  orders : Nat
  product : Nat
  series : Option Nat
  order_items_count : Int
deriving DecidableEq, Repr

/-- One row of the `order_status_history` table (model class
`OrderStatusHistory`); `order_status_history_chang_at` is a timestamp. -/
structure OrderStatusHistory where
  order_status_history_id : Nat
  orders : Nat
  order_status_history_from_stat : String
  order_status_history_to_status : String
  order_status_history_chang_at : Nat
  order_status_history_note : Option String
deriving DecidableEq, Repr

/-- One row of the `cart_item` table (model class `CartItem`); quantities
are validated to be positive integers when added to the cart. -/
structure CartItem where
  cart_item_id : Nat
  cart : Nat
  product : Nat
  series : Option Nat
  cart_item_quantity : Int
deriving DecidableEq, Repr

/-- The database state the checkout core reads and writes: catalog lookup
tables (`clients`, `products`, `series`), the stock ledger, the order
aggregate tables, the cart items, and the auto-increment counters for
the primary keys the core creates. -/
structure Db where
  clients : List Nat
  products : List Nat
  series : List Series
  stocks : List Stocks
  orders : List Orders
  ordersItems : List OrdersItems
  history : List OrderStatusHistory
  cartItems : List CartItem
  nextOrdersId : Nat
  nextItemId : Nat
  nextHistoryId : Nat
deriving DecidableEq, Repr

/-- Python `str.strip()`: drop whitespace characters from both ends,
modelled over the code-point list of the string. -/
def pyStrip (s : String) : String :=
  ⟨(((s.data.dropWhile Char.isWhitespace).reverse).dropWhile Char.isWhitespace).reverse⟩

/-- Python slicing `text[:n]`: the first `n` code points. -/
def pySlice (s : String) (n : Nat) : String :=
  ⟨s.data.take n⟩

/-- Python `len(text)`: the number of code points. -/
def pyLen (s : String) : Nat :=
  s.data.length

/-- `_clip` from `views/utils.py` applied to a value that is known to be
a string: `text if len(text) <= length else text[:length]`. -/
def clipString (text : String) (length : Nat) : String :=
  if pyLen text ≤ length then text else pySlice text length

/-- `_clip` from `views/utils.py`: `None` passes through, any other value
is truncated to at most `length` characters. -/
def _clip (value : Option String) (length : Nat) : Option String :=
  match value with
  | none => none
  | some text => some (clipString text length)

/-- Python falsy-or-default on an optional string (`value or default`):
a missing or empty string is replaced by the default. -/
def orDefault (value : Option String) (default : String) : String :=
  match value with
  | none => default
  | some s => if s = "" then default else s

/-- One entry of the `items` list of a create-order request body, after
the `int(...)` conversions of the view: `malformed` records that one of
the conversions raised (`KeyError`/`TypeError`/`ValueError`), in which
case the remaining fields are irrelevant. -/
structure RawItem where
  malformed : Bool
  product_id : Nat
  quantity : Int
  series_id : Option Nat
deriving DecidableEq, Repr

/-- The parsed body of a create-order request (`orders_view`, POST).
Dates arrive already parsed; a missing `status` key is `none`. -/
structure OrderPayload where
  client_id : Option Nat
  items : List RawItem
  status : Option String
  status_note : Option String
  status_from : Option String
  created_at : Option Nat
  shipped_at : Option Nat
  delivered_at : Option Nat
  cancel_reason : Option String
deriving DecidableEq, Repr

/-- The error conditions surfaced by the order-creation and cart-checkout
views as 400/404 responses. -/
inductive OrderError where
  | clientIdRequired
  | emptyItems
  | emptyCart
  | clientNotFound (client_id : Nat)
  | malformedItem
  | nonPositiveQuantity
  | productNotFound (product_id : Nat)
  | seriesNotFound (series_id : Nat)
  | seriesProductMismatch (series_id product_id : Nat)
  | insufficientStock (e : InsufficientStock)
deriving DecidableEq, Repr

/-- Outcome of a transaction body: the state built so far, whether
`transaction.set_rollback(True)` was called (or an exception escaped the
atomic block), and the error returned, if any. -/
structure Step where
  db : Db
  rollback : Bool
  err : Option OrderError
deriving DecidableEq, Repr

/-- `get_object_or_404(Series, pk=series_id)` over the series table. -/
def lookupSeries (db : Db) (sid : Nat) : Option Series :=
  db.series.find? (fun srow => srow.series_id == sid)

/-- `OrdersItems.objects.create(...)`: append one order line row and bump
the primary-key counter. -/
def addOrdersItem (db : Db) (oid pid : Nat) (sid : Option Nat) (qty : Int) : Db :=
  { db with
    ordersItems := db.ordersItems ++ [⟨db.nextItemId, oid, pid, sid, qty⟩],
    nextItemId := db.nextItemId + 1 }

/-- `OrderStatusHistory.objects.create(...)`: append one history row and
bump the primary-key counter. -/
def addHistory (db : Db) (oid : Nat) (fromStat toStatus : String) (now : Nat)
    (note : Option String) : Db :=
  { db with
    history := db.history ++ [⟨db.nextHistoryId, oid, fromStat, toStatus, now, note⟩],
    nextHistoryId := db.nextHistoryId + 1 }

/-- The allocation step applied to the database: run `allocate` over the
stock ledger and store the updated ledger on success. -/
def applyAllocate (db : Db) (c sid : Nat) (q : ℚ) (now : Nat) :
    Except InsufficientStock Db :=
  match allocate db.stocks c sid q now with
  | .error e => .error e
  | .ok st => .ok { db with stocks := st }

/-- The `for item in items_data` loop of `orders_view` (POST), inside the
atomic block: validate each item, create its `OrdersItems` row, and run
the allocation when the item references a series.  Every error return in
the source calls `transaction.set_rollback(True)` first (a `Http404`
raised by `get_object_or_404` likewise aborts the atomic block), which
the model records in the `rollback` flag. -/
def processItems (c oid now : Nat) : Db → List RawItem → Step
  | db, [] => ⟨db, false, none⟩
  | db, it :: rest =>
    if it.malformed then
      ⟨db, true, some .malformedItem⟩
    else if it.quantity ≤ 0 then
      ⟨db, true, some .nonPositiveQuantity⟩
    else if it.product_id ∈ db.products then
      match it.series_id with
      | none =>
        processItems c oid now (addOrdersItem db oid it.product_id none it.quantity) rest
      | some sid =>
        match lookupSeries db sid with
        | none => ⟨db, true, some (.seriesNotFound sid)⟩
        | some srow =>
          if srow.product_id ≠ it.product_id then
            ⟨db, true, some (.seriesProductMismatch sid it.product_id)⟩
          else
            let db1 := addOrdersItem db oid it.product_id (some sid) it.quantity
            match applyAllocate db1 c sid (it.quantity : ℚ) now with
            | .error e => ⟨db1, true, some (.insufficientStock e)⟩
            | .ok db2 => processItems c oid now db2 rest
    else
      ⟨db, true, some (.productNotFound it.product_id)⟩

/-- The defaulted status value of `orders_view`:
`_clip(str(payload.get("status", default)).strip() or default, length=30)`. -/
def statusValueOrders (status : Option String) : String :=
  clipString (orDefault (some (pyStrip (status.getD "В ожидании"))) "В ожидании") 30

/-- The `Orders` row created by `orders_view` (POST). -/
def ordersTxnOrder (db : Db) (cid : Nat) (p : OrderPayload) (nowDate : Nat) : Orders :=
  ⟨db.nextOrdersId, cid, statusValueOrders p.status, p.created_at.getD nowDate,
    p.shipped_at, p.delivered_at, _clip p.cancel_reason 100⟩

/-- The database right after `Orders.objects.create(...)` in
`orders_view` (POST). -/
def ordersTxnStart (db : Db) (cid : Nat) (p : OrderPayload) (nowDate : Nat) : Db :=
  { db with
    orders := db.orders ++ [ordersTxnOrder db cid p nowDate],
    nextOrdersId := db.nextOrdersId + 1 }

/-- The transaction body of `orders_view` (POST): create the `Orders`
row, process every item, and on all-success append the single creation
`OrderStatusHistory` entry. -/
def ordersTxn (db : Db) (cid : Nat) (p : OrderPayload) (now nowDate : Nat) : Step :=
  let st := processItems cid db.nextOrdersId now (ordersTxnStart db cid p nowDate) p.items
  match st.err with
  | some _ => st
  | none =>
    ⟨addHistory st.db db.nextOrdersId
        (clipString (orDefault p.status_from "Создан") 30)
        (clipString (statusValueOrders p.status) 30) now
        (some (clipString (orDefault p.status_note "Created via API") 30)),
      false, none⟩

/-- `orders_view` (POST): pre-transaction validation (required client id,
non-empty item list, client lookup), then the atomic transaction; the
committed database is the original one whenever the body rolled back. -/
def ordersPost (db : Db) (p : OrderPayload) (now nowDate : Nat) :
    Db × Except OrderError Nat :=
  match p.client_id with
  | none => (db, .error .clientIdRequired)
  | some cid =>
    if p.items.isEmpty then
      (db, .error .emptyItems)
    else if cid ∈ db.clients then
      let st := ordersTxn db cid p now nowDate
      let committed := if st.rollback then db else st.db
      match st.err with
      | some e => (committed, .error e)
      | none => (committed, .ok db.nextOrdersId)
    else
      (db, .error (.clientNotFound cid))

/-- The parsed body of a cart-checkout request (`cart_checkout_view`). -/
structure CartPayload where
  status : Option String
  status_note : Option String
  created_at : Option Nat
  shipped_at : Option Nat
  delivered_at : Option Nat
  cancel_reason : Option String
deriving DecidableEq, Repr

/-- The `for cart_item in cart_items` loop of `cart_checkout_view`,
inside the atomic block: create each `OrdersItems` row from the cart
line and run the allocation when the line references a series (cart
lines were already validated when added to the cart, so the loop has no
validation branches). -/
def processCartItems (c oid now : Nat) : Db → List CartItem → Step
  | db, [] => ⟨db, false, none⟩
  | db, it :: rest =>
    let db1 := addOrdersItem db oid it.product it.series it.cart_item_quantity
    match it.series with
    | none => processCartItems c oid now db1 rest
    | some sid =>
      match applyAllocate db1 c sid (it.cart_item_quantity : ℚ) now with
      | .error e => ⟨db1, true, some (.insufficientStock e)⟩
      | .ok db2 => processCartItems c oid now db2 rest

/-- The defaulted status value of `cart_checkout_view`:
`str(payload.get("status", "pending")).strip()[:30] or "pending"`. -/
def statusValueCart (status : Option String) : String :=
  orDefault (some (pySlice (pyStrip (status.getD "pending")) 30)) "pending"

/-- The transaction body of `cart_checkout_view`: create the `Orders`
row, process every cart line, and on all-success append the creation
history entry, delete the checked-out cart lines. -/
def cartCancelReason (p : CartPayload) : Option String :=
  match pySlice (p.cancel_reason.getD "") 100 with
  | "" => none
  | s => some s

/-- The `Orders` row created by `cart_checkout_view`. -/
def cartTxnOrder (db : Db) (cid : Nat) (p : CartPayload) (nowDate : Nat) : Orders :=
  ⟨db.nextOrdersId, cid, statusValueCart p.status, p.created_at.getD nowDate,
    p.shipped_at, p.delivered_at, cartCancelReason p⟩

/-- The database right after `Orders.objects.create(...)` in
`cart_checkout_view`. -/
def cartTxnStart (db : Db) (cid : Nat) (p : CartPayload) (nowDate : Nat) : Db :=
  { db with
    orders := db.orders ++ [cartTxnOrder db cid p nowDate],
    nextOrdersId := db.nextOrdersId + 1 }

/-- The history note of the cart checkout:
`str(note_value)[:30] if note_value else "Created from cart"`. -/
def cartHistoryNote (p : CartPayload) : String :=
  match p.status_note with
  | none => "Created from cart"
  | some s => if s = "" then "Created from cart" else pySlice s 30

def cartTxn (db : Db) (cid cartId : Nat) (p : CartPayload) (now nowDate : Nat) : Step :=
  let st := processCartItems cid db.nextOrdersId now (cartTxnStart db cid p nowDate)
    (db.cartItems.filter (fun ci => ci.cart == cartId))
  match st.err with
  | some _ => st
  | none =>
    let db1 := addHistory st.db db.nextOrdersId "created" (statusValueCart p.status) now
      (some (cartHistoryNote p))
    ⟨{ db1 with cartItems := db1.cartItems.filter (fun ci => ¬ ci.cart == cartId) },
      false, none⟩

/-- `cart_checkout_view`: reject an empty cart before the transaction,
then run the atomic transaction; the committed database is the original
one whenever the body rolled back. -/
def cartCheckout (db : Db) (cid cartId : Nat) (p : CartPayload) (now nowDate : Nat) :
    Db × Except OrderError Nat :=
  if (db.cartItems.filter (fun ci => ci.cart == cartId)).isEmpty then
    (db, .error .emptyCart)
  else
    let st := cartTxn db cid cartId p now nowDate
    let committed := if st.rollback then db else st.db
    match st.err with
    | some e => (committed, .error e)
    | none => (committed, .ok db.nextOrdersId)

/-- The parsed body of a partial-update request (`order_detail_view`,
PATCH).  For `status` a key that is absent or null is `none` (the view
treats both alike); for the date and cancel-reason fields the outer
option records whether the key is present and the inner option is the
(possibly null) parsed value, since a present null clears the field. -/
structure PatchPayload where
  status : Option String
  status_note : Option String
  shipped_at : Option (Option Nat)
  delivered_at : Option (Option Nat)
  cancel_reason : Option (Option String)
deriving DecidableEq, Repr

/-- Whether a partial update changes the order status: a supplied status
is stripped and clipped to 30 characters, and the update fires only when
the result is non-empty and differs from the current status. -/
def statusChanged (order : Orders) (p : PatchPayload) : Bool :=
  match p.status with
  | none => false
  | some s =>
    let ns := clipString (pyStrip s) 30
    decide (ns ≠ "" ∧ ns ≠ order.orders_status)

/-- The status the order row carries after a partial update: the
supplied status, stripped and clipped to 30 characters, when it is
non-empty and differs from the current one; the current status
otherwise. -/
def newStatusOf (order : Orders) (p : PatchPayload) : String :=
  match p.status with
  | none => order.orders_status
  | some s =>
    let ns := clipString (pyStrip s) 30
    if ns ≠ "" ∧ ns ≠ order.orders_status then ns else order.orders_status

/-- The order row resulting from one partial update: status per
`newStatusOf`, each date or cancel-reason field overwritten exactly when
its key is present in the payload. -/
def patchedOrder (order : Orders) (p : PatchPayload) : Orders :=
  { order with
    orders_status := newStatusOf order p,
    orders_shipped_at := p.shipped_at.getD order.orders_shipped_at,
    orders_delivered_at := p.delivered_at.getD order.orders_delivered_at,
    orders_cancel_reason :=
      match p.cancel_reason with
      | none => order.orders_cancel_reason
      | some v => _clip v 100 }

/-- `order_detail_view` (PATCH): apply the supplied field changes to the
order row, and append one `OrderStatusHistory` entry (from the old
status, to the new one, with the optional note) exactly when the status
actually changed.  Takes and returns the history table and its
primary-key counter alongside the order row. -/
def orderDetailPatch (order : Orders) (hist : List OrderStatusHistory)
    (nextHid : Nat) (p : PatchPayload) (now : Nat) :
    Orders × List OrderStatusHistory × Nat :=
  if statusChanged order p then
    (patchedOrder order p,
      hist ++ [⟨nextHid, order.orders_id, clipString order.orders_status 30,
        clipString (newStatusOf order p) 30, now, _clip p.status_note 30⟩],
      nextHid + 1)
  else
    (patchedOrder order p, hist, nextHid)

/-- Fold a sequence of partial updates (each with its timestamp) over an
order and the history table. -/
def applyPatchList :
    Orders × List OrderStatusHistory × Nat → List (PatchPayload × Nat) →
    Orders × List OrderStatusHistory × Nat
  | st, [] => st
  | (o, h, nid), (p, now) :: rest => applyPatchList (orderDetailPatch o h nid p now) rest

/-- The number of updates in a sequence that actually change the status
(each judged against the status the order has at that point). -/
def numStatusChanges (order : Orders) : List (PatchPayload × Nat) → Nat
  | [] => 0
  | (p, _) :: rest =>
    (if statusChanged order p then 1 else 0) +
      numStatusChanges (patchedOrder order p) rest

/-- The `status_history` block of `_serialize_order`:
`OrderStatusHistory.objects.filter(orders=order).order_by("order_status_history_id")`. -/
def serializeStatusHistory (hist : List OrderStatusHistory) (oid : Nat) :
    List OrderStatusHistory :=
  (hist.filter (fun h => h.orders == oid)).mergeSort
    (fun a b => a.order_status_history_id ≤ b.order_status_history_id)

/-- Modelled from the spec: the unserialized interleaving of two
concurrent checkout transactions described in section 5 (missing from
the source, which contains no lock or atomic conditional write).  Both
transactions read the ledger and run their availability check and
draw-down against the same snapshot; their row writes are then committed
one after the other, the second overwriting the first on shared rows. -/
def concurrentCommit (led : List Stocks) (c1 c2 s : Nat) (q1 q2 : ℚ) (now : Nat) :
    List Stocks :=
  let upd1 := (drawDown now q1 (clientStocks led s c1 ++ publicStocks led s)).2
  let upd2 := (drawDown now q2 (clientStocks led s c2 ++ publicStocks led s)).2
  writeBack (writeBack led upd1) upd2

/-- Concrete fixture: the ledger of the preference example of the spec,
3 client-owned units and 5 public units of series 7 (client 2 owns the
reserved row, product ids are irrelevant to the ledger). -/
def ledPref : List Stocks :=
  [⟨1, some 2, some 7, true, 3, 0⟩, ⟨2, none, some 7, false, 5, 0⟩]

/-- Concrete fixture: `ledPref` plus an unrelated row of series 8. -/
def ledW : List Stocks :=
  [⟨1, some 2, some 7, true, 3, 0⟩, ⟨2, none, some 7, false, 5, 0⟩,
    ⟨3, none, some 8, true, 2, 0⟩]

/-- Concrete fixture: `ledW` after allocating 4 units of series 7 to
client 2 at time 9. -/
def ledW2 : List Stocks :=
  [⟨1, some 2, some 7, true, 0, 9⟩, ⟨2, none, some 7, false, 4, 9⟩,
    ⟨3, none, some 8, true, 2, 0⟩]

/-- Concrete fixture: a nearly exhausted series, one public unit. -/
def raceLed : List Stocks :=
  [⟨1, none, some 7, false, 1, 0⟩]

/-- Concrete fixture: a database with client 2, product 4, series 7 of
product 4, and the ledger `ledW`. -/
def dbW : Db :=
  ⟨[2], [4], [⟨7, 4⟩], ledW, [], [], [], [], 1, 1, 1⟩

/-- Concrete fixture: two order lines, the second of which must fail
with insufficient stock after the first one already deducted. -/
def itemsFailW : List RawItem :=
  [⟨false, 4, 3, some 7⟩, ⟨false, 4, 9, some 7⟩]

/-- Concrete fixture: a create-order payload whose second line fails. -/
def payloadFailW : OrderPayload :=
  ⟨some 2, itemsFailW, none, none, none, none, none, none, none⟩

/-- Concrete fixture: a create-order payload with one satisfiable line. -/
def payloadOkW : OrderPayload :=
  ⟨some 2, [⟨false, 4, 4, some 7⟩], none, none, none, none, none, none, none⟩

/-- Concrete fixture: `dbW` with one cart line of 9 units of series 7 in
cart 3, which exceeds the 8 available units. -/
def cartDbW : Db :=
  ⟨[2], [4], [⟨7, 4⟩], ledW, [], [], [], [⟨1, 3, 4, some 7, 9⟩], 1, 1, 1⟩

/-- Concrete fixture: an empty cart-checkout payload. -/
def cartPayloadW : CartPayload :=
  ⟨none, none, none, none, none, none⟩

/-- Concrete fixture: an order whose current status is `pending`. -/
def oW : Orders :=
  ⟨1, 2, "pending", 20, none, none, none⟩

/-- Concrete fixture: a partial update supplying a whitespace-only
status. -/
def pBlankW : PatchPayload :=
  ⟨some "   ", none, none, none, none⟩

/-- Concrete fixture: an order whose status is exactly 30 characters. -/
def oLongW : Orders :=
  ⟨1, 2, "abcdefghijklmnopqrstuvwxyz0123", 20, none, none, none⟩

/-- Concrete fixture: a partial update supplying a status longer than 30
characters whose first 30 characters equal the status of `oLongW`. -/
def pLongW : PatchPayload :=
  ⟨some "abcdefghijklmnopqrstuvwxyz0123extra", none, none, none, none⟩

/-- Concrete fixture: a date-only partial update. -/
def pShipW : PatchPayload :=
  ⟨none, none, some (some 33), none, none⟩

/-- Concrete fixture: a partial update that changes the status. -/
def pChangeW : PatchPayload :=
  ⟨some "shipped", some "note", none, none, none⟩

/-! ### Lemmas about the greedy draw-down -/

@[simp]
theorem sumCount_nil : sumCount [] = 0 := by
  simp [sumCount]

@[simp]
theorem sumCount_cons (r : Stocks) (l : List Stocks) :
    sumCount (r :: l) = r.stocks_count + sumCount l := by
  simp [sumCount]

@[simp]
theorem sumCount_append (a b : List Stocks) :
    sumCount (a ++ b) = sumCount a + sumCount b := by
  simp [sumCount]

theorem sumCount_nonneg (l : List Stocks) (h : ∀ r ∈ l, 0 ≤ r.stocks_count) :
    0 ≤ sumCount l := by
  induction l with
  | nil => simp
  | cons r rs ih =>
    have h1 := h r (by simp)
    have h2 := ih (fun x hx => h x (by simp [hx]))
    simp only [sumCount_cons]
    linarith

theorem drawDown_noop (now : Nat) (rem : ℚ) (rows : List Stocks) (h : rem ≤ 0) :
    drawDown now rem rows = (rem, rows) := by
  cases rows with
  | nil => simp [drawDown]
  | cons r rs => simp [drawDown, h]

theorem drawDown_sum (now : Nat) (rem : ℚ) (rows : List Stocks) :
    sumCount (drawDown now rem rows).2 + rem = sumCount rows + (drawDown now rem rows).1 := by
  induction rows generalizing rem with
  | nil => simp [drawDown]
  | cons r rs ih =>
    by_cases h1 : rem ≤ 0
    · simp [drawDown, h1]
    · by_cases h2 : r.stocks_count ≤ 0
      · have := ih rem
        simp only [drawDown, if_neg h1, if_pos h2, sumCount_cons]
        linarith
      · have := ih (rem - min rem r.stocks_count)
        simp only [drawDown, if_neg h1, if_neg h2, sumCount_cons]
        linarith

theorem drawDown_ids (now : Nat) (rem : ℚ) (rows : List Stocks) :
    ((drawDown now rem rows).2).map (·.stocks_id) = rows.map (·.stocks_id) := by
  induction rows generalizing rem with
  | nil => simp [drawDown]
  | cons r rs ih =>
    by_cases h1 : rem ≤ 0
    · simp [drawDown, h1]
    · by_cases h2 : r.stocks_count ≤ 0
      · simp only [drawDown, if_neg h1, if_pos h2, List.map_cons]
        rw [ih rem]
      · simp only [drawDown, if_neg h1, if_neg h2, List.map_cons]
        rw [ih (rem - min rem r.stocks_count)]

theorem drawDown_seriesField (now : Nat) (rem : ℚ) (rows : List Stocks) :
    ((drawDown now rem rows).2).map (·.series) = rows.map (·.series) := by
  induction rows generalizing rem with
  | nil => simp [drawDown]
  | cons r rs ih =>
    by_cases h1 : rem ≤ 0
    · simp [drawDown, h1]
    · by_cases h2 : r.stocks_count ≤ 0
      · simp only [drawDown, if_neg h1, if_pos h2, List.map_cons]
        rw [ih rem]
      · simp only [drawDown, if_neg h1, if_neg h2, List.map_cons]
        rw [ih (rem - min rem r.stocks_count)]

theorem drawDown_nonneg_rows (now : Nat) (rem : ℚ) (rows : List Stocks)
    (h : ∀ r ∈ rows, 0 ≤ r.stocks_count) :
    ∀ x ∈ (drawDown now rem rows).2, 0 ≤ x.stocks_count := by
  induction rows generalizing rem with
  | nil => simp [drawDown]
  | cons r rs ih =>
    by_cases h1 : rem ≤ 0
    · simpa [drawDown, h1] using h
    · by_cases h2 : r.stocks_count ≤ 0
      · simp only [drawDown, if_neg h1, if_pos h2]
        intro x hx
        rcases List.mem_cons.mp hx with hx | hx
        · exact hx ▸ h r (by simp)
        · exact ih rem (fun y hy => h y (by simp [hy])) x hx
      · simp only [drawDown, if_neg h1, if_neg h2]
        intro x hx
        rcases List.mem_cons.mp hx with hx | hx
        · subst hx
          simp only
          have := min_le_right rem r.stocks_count
          linarith
        · exact ih (rem - min rem r.stocks_count) (fun y hy => h y (by simp [hy])) x hx

theorem drawDown_rem_le (now : Nat) (rem : ℚ) (rows : List Stocks) :
    (drawDown now rem rows).1 ≤ rem := by
  induction rows generalizing rem with
  | nil => simp [drawDown]
  | cons r rs ih =>
    by_cases h1 : rem ≤ 0
    · simp [drawDown, h1]
    · by_cases h2 : r.stocks_count ≤ 0
      · simpa only [drawDown, if_neg h1, if_pos h2] using ih rem
      · have hmin : 0 < min rem r.stocks_count := lt_min (by linarith) (by linarith)
        have := ih (rem - min rem r.stocks_count)
        simp only [drawDown, if_neg h1, if_neg h2]
        linarith

theorem drawDown_rem_nonneg (now : Nat) (rem : ℚ) (rows : List Stocks) (h : 0 ≤ rem) :
    0 ≤ (drawDown now rem rows).1 := by
  induction rows generalizing rem with
  | nil => simpa [drawDown]
  | cons r rs ih =>
    by_cases h1 : rem ≤ 0
    · simpa [drawDown, h1]
    · by_cases h2 : r.stocks_count ≤ 0
      · simpa only [drawDown, if_neg h1, if_pos h2] using ih rem h
      · have hmin := min_le_left rem r.stocks_count
        simp only [drawDown, if_neg h1, if_neg h2]
        exact ih (rem - min rem r.stocks_count) (by linarith)

theorem drawDown_exhausts (now : Nat) (rem : ℚ) (rows : List Stocks)
    (h0 : 0 ≤ rem) (hpos : ∀ r ∈ rows, 0 < r.stocks_count)
    (hle : rem ≤ sumCount rows) :
    (drawDown now rem rows).1 = 0 := by
  induction rows generalizing rem with
  | nil =>
    simp only [sumCount_nil] at hle
    simp [drawDown]
    linarith
  | cons r rs ih =>
    by_cases h1 : rem ≤ 0
    · simp [drawDown, h1]
      linarith
    · have hr := hpos r (by simp)
      have h2 : ¬ r.stocks_count ≤ 0 := by linarith
      have hrs : ∀ x ∈ rs, 0 < x.stocks_count := fun x hx => hpos x (by simp [hx])
      have hsum : 0 ≤ sumCount rs :=
        sumCount_nonneg rs (fun x hx => le_of_lt (hrs x hx))
      simp only [drawDown, if_neg h1, if_neg h2]
      apply ih (rem - min rem r.stocks_count) _ hrs
      · simp only [sumCount_cons] at hle
        rcases le_total rem r.stocks_count with hc | hc
        · rw [min_eq_left hc]; linarith
        · rw [min_eq_right hc]; linarith
      · have := min_le_left rem r.stocks_count
        linarith

theorem drawDown_drained (now : Nat) (rem : ℚ) (rows : List Stocks)
    (hpos : ∀ r ∈ rows, 0 < r.stocks_count)
    (hrem : 0 < (drawDown now rem rows).1) :
    ∀ x ∈ (drawDown now rem rows).2, x.stocks_count = 0 := by
  induction rows generalizing rem with
  | nil => simp [drawDown]
  | cons r rs ih =>
    by_cases h1 : rem ≤ 0
    · rw [drawDown_noop now rem (r :: rs) h1] at hrem
      linarith
    · have hr := hpos r (by simp)
      have h2 : ¬ r.stocks_count ≤ 0 := by linarith
      have hrs : ∀ x ∈ rs, 0 < x.stocks_count := fun x hx => hpos x (by simp [hx])
      simp only [drawDown, if_neg h1, if_neg h2] at hrem ⊢
      have htail := drawDown_rem_le now (rem - min rem r.stocks_count) rs
      have hlt : min rem r.stocks_count < rem := by linarith
      have hminr : min rem r.stocks_count = r.stocks_count := by
        rcases le_total rem r.stocks_count with hc | hc
        · rw [min_eq_left hc] at hlt; linarith
        · exact min_eq_right hc
      intro x hx
      rcases List.mem_cons.mp hx with hx | hx
      · subst hx
        simp only
        rw [hminr]
        ring
      · exact ih (rem - min rem r.stocks_count) hrs hrem x hx

theorem drawDown_append (now : Nat) (rem : ℚ) (xs ys : List Stocks) :
    drawDown now rem (xs ++ ys) =
      ((drawDown now (drawDown now rem xs).1 ys).1,
        (drawDown now rem xs).2 ++ (drawDown now (drawDown now rem xs).1 ys).2) := by
  induction xs generalizing rem with
  | nil => simp [drawDown]
  | cons x xs0 ih =>
    by_cases h1 : rem ≤ 0
    · simp [drawDown, h1, drawDown_noop now rem ys h1]
    · by_cases h2 : x.stocks_count ≤ 0
      · simp only [List.cons_append, drawDown, if_neg h1, if_pos h2, List.append_eq]
        rw [ih rem]
      · simp only [List.cons_append, drawDown, if_neg h1, if_neg h2, List.append_eq]
        rw [ih (rem - min rem x.stocks_count)]

/-! ### Lemmas about the candidate pools and the write-back -/

theorem clientStocks_mem (led : List Stocks) (s c : Nat) (r : Stocks)
    (h : r ∈ clientStocks led s c) :
    r ∈ led ∧ r.series = some s ∧ r.client = some c ∧ 0 < r.stocks_count := by
  have := List.mem_filter.mp h
  simpa using this

theorem publicStocks_mem (led : List Stocks) (s : Nat) (r : Stocks)
    (h : r ∈ publicStocks led s) :
    r ∈ led ∧ r.series = some s ∧ r.client = none ∧ 0 < r.stocks_count := by
  have := List.mem_filter.mp h
  simpa using this

theorem map_find_getD (pool upd : List Stocks)
    (hid : pool.map (·.stocks_id) = upd.map (·.stocks_id))
    (hnd : (pool.map (·.stocks_id)).Nodup) :
    pool.map (fun p0 => (upd.find? (fun u => u.stocks_id == p0.stocks_id)).getD p0) = upd := by
  induction pool generalizing upd with
  | nil =>
    cases upd with
    | nil => simp
    | cons u us => simp at hid
  | cons p ps ih =>
    cases upd with
    | nil => simp at hid
    | cons u us =>
      simp only [List.map_cons, List.cons.injEq] at hid
      obtain ⟨hpu, htail⟩ := hid
      simp only [List.map_cons, List.nodup_cons] at hnd
      obtain ⟨hp_notin, hnd_tail⟩ := hnd
      have hhead : (List.find? (fun u0 => u0.stocks_id == p.stocks_id) (u :: us)).getD p = u := by
        have hpu2 : (u.stocks_id == p.stocks_id) = true := by simp [hpu]
        simp only [List.find?_cons, hpu2, Option.getD_some]
      have htail_map :
          ps.map (fun p0 => (List.find? (fun u0 => u0.stocks_id == p0.stocks_id) (u :: us)).getD p0) =
            ps.map (fun p0 => (List.find? (fun u0 => u0.stocks_id == p0.stocks_id) us).getD p0) := by
        apply List.map_congr_left
        intro q hq
        have hqid : q.stocks_id ∈ ps.map (·.stocks_id) := List.mem_map_of_mem _ hq
        have hne : (u.stocks_id == q.stocks_id) = false := by
          simp only [beq_eq_false_iff_ne, ne_eq]
          intro heq
          apply hp_notin
          rw [hpu, heq]
          exact hqid
        simp only [List.find?_cons, hne]
      simp only [List.map_cons, hhead, htail_map, List.cons.injEq, true_and]
      exact ih us htail hnd_tail

theorem find?_eq_none_of_fresh (upd : List Stocks) (r : Stocks)
    (h : r.stocks_id ∉ upd.map (·.stocks_id)) :
    upd.find? (fun u => u.stocks_id == r.stocks_id) = none := by
  apply List.find?_eq_none.mpr
  intro u hu
  simp only [beq_iff_eq]
  intro heq
  exact h (by rw [← heq]; exact List.mem_map_of_mem _ hu)

theorem filter_or_perm {α : Type} (p q : α → Bool) (l : List α)
    (h : ∀ a ∈ l, ¬(p a = true ∧ q a = true)) :
    (l.filter (fun a => p a || q a)).Perm (l.filter p ++ l.filter q) := by
  induction l with
  | nil => simp
  | cons a l ih =>
    have hl := ih (fun x hx => h x (by simp [hx]))
    by_cases hp : p a = true
    · have hq : ¬ q a = true := fun hq => h a (by simp) ⟨hp, hq⟩
      simpa [List.filter_cons, hp, hq] using hl.cons a
    · by_cases hq : q a = true
      · simp only [List.filter_cons, hp, hq, Bool.false_or, cond_true, cond_false]
        exact (hl.cons a).trans List.perm_middle.symm
      · simpa [List.filter_cons, hp, hq] using hl

theorem pool_ids_nodup (led : List Stocks) (s c : Nat)
    (hnd : (led.map (·.stocks_id)).Nodup) :
    ((clientStocks led s c ++ publicStocks led s).map (·.stocks_id)).Nodup := by
  rw [List.map_append, List.nodup_append]
  refine ⟨?_, ?_, ?_⟩
  · exact (((List.filter_sublist led).map (·.stocks_id)).nodup hnd)
  · exact (((List.filter_sublist led).map (·.stocks_id)).nodup hnd)
  · intro x hx hy
    obtain ⟨a, ha, hax⟩ := List.mem_map.mp hx
    obtain ⟨b, hb, hbx⟩ := List.mem_map.mp hy
    obtain ⟨haled, _, hac, _⟩ := clientStocks_mem led s c a ha
    obtain ⟨hbled, _, hbc, _⟩ := publicStocks_mem led s b hb
    have hab : a = b :=
      List.inj_on_of_nodup_map hnd haled hbled (by rw [hax, hbx])
    rw [hab, hbc] at hac
    exact Option.noConfusion hac

theorem writeBack_perm_pool (led upd : List Stocks) (s c : Nat)
    (hnd : (led.map (·.stocks_id)).Nodup)
    (hid : (clientStocks led s c ++ publicStocks led s).map (·.stocks_id) =
      upd.map (·.stocks_id)) :
    (writeBack led upd).Perm
      (upd ++ led.filter (fun r =>
        !(decide (r.series = some s ∧ r.client = some c ∧ 0 < r.stocks_count) ||
          decide (r.series = some s ∧ r.client = none ∧ 0 < r.stocks_count)))) := by
  classical
  set pc : Stocks → Bool :=
    fun r => decide (r.series = some s ∧ r.client = some c ∧ 0 < r.stocks_count) with hpc
  set pp : Stocks → Bool :=
    fun r => decide (r.series = some s ∧ r.client = none ∧ 0 < r.stocks_count) with hpp
  set f : Stocks → Stocks :=
    fun r => (upd.find? (fun u => u.stocks_id == r.stocks_id)).getD r with hf
  have hdisj : ∀ a ∈ led, ¬(pc a = true ∧ pp a = true) := by
    intro a _ ⟨h1, h2⟩
    rw [hpc] at h1
    rw [hpp] at h2
    simp only [decide_eq_true_eq] at h1 h2
    rw [h1.2.1] at h2
    exact Option.noConfusion h2.2.1
  have hpool : (led.filter (fun r => pc r || pp r)).Perm
      (clientStocks led s c ++ publicStocks led s) := by
    have := filter_or_perm pc pp led hdisj
    simpa [clientStocks, publicStocks, hpc, hpp] using this
  have hsplit : ((led.filter (fun r => pc r || pp r)) ++
      (led.filter (fun r => !(pc r || pp r)))).Perm led :=
    List.filter_append_perm _ led
  have hwb : writeBack led upd = led.map f := rfl
  have hperm1 : (writeBack led upd).Perm
      (((led.filter (fun r => pc r || pp r)) ++ (led.filter (fun r => !(pc r || pp r)))).map f) := by
    rw [hwb]
    exact (hsplit.map f).symm
  have hfixed : (led.filter (fun r => !(pc r || pp r))).map f =
      led.filter (fun r => !(pc r || pp r)) := by
    have : ∀ r ∈ led.filter (fun r => !(pc r || pp r)), f r = r := by
      intro r hr
      obtain ⟨hrled, hrneg⟩ := List.mem_filter.mp hr
      have hfresh : r.stocks_id ∉ upd.map (·.stocks_id) := by
        rw [← hid]
        intro hmem
        obtain ⟨a, ha, haid⟩ := List.mem_map.mp hmem
        have haled : a ∈ led := by
          rcases List.mem_append.mp ha with h | h
          · exact (clientStocks_mem led s c a h).1
          · exact (publicStocks_mem led s a h).1
        have har : a = r := List.inj_on_of_nodup_map hnd haled hrled haid
        rw [har] at ha
        rcases List.mem_append.mp ha with h | h
        · have hx := (List.mem_filter.mp h).2
          simp [hpc, hpp, hx] at hrneg
          simp only [decide_eq_true_eq] at hx
          obtain ⟨h1, h2, h3⟩ := hx
          rcases hrneg.1 with hh | hh | hh
          · exact hh h1
          · exact hh h2
          · linarith
        · have hx := (List.mem_filter.mp h).2
          simp [hpc, hpp, hx] at hrneg
          simp only [decide_eq_true_eq] at hx
          obtain ⟨h1, h2, h3⟩ := hx
          rcases hrneg.2 with hh | hh | hh
          · exact hh h1
          · exact hh h2
          · linarith
      rw [hf]
      simp only
      rw [find?_eq_none_of_fresh upd r hfresh]
      rfl
    have h3 : (led.filter (fun r => !(pc r || pp r))).map f =
        (led.filter (fun r => !(pc r || pp r))).map id :=
      List.map_congr_left (fun r hr => this r hr)
    rw [h3, List.map_id]
  have hpooled : ((led.filter (fun r => pc r || pp r)).map f).Perm upd := by
    have h1 : ((led.filter (fun r => pc r || pp r)).map f).Perm
        ((clientStocks led s c ++ publicStocks led s).map f) := hpool.map f
    have h2 : (clientStocks led s c ++ publicStocks led s).map f = upd := by
      rw [hf]
      exact map_find_getD _ upd hid (pool_ids_nodup led s c hnd)
    rw [h2] at h1
    exact h1
  have hstep : (((led.filter (fun r => pc r || pp r)) ++
      (led.filter (fun r => !(pc r || pp r)))).map f).Perm
      (upd ++ led.filter (fun r => !(pc r || pp r))) := by
    rw [List.map_append, hfixed]
    exact hpooled.append_right _
  exact hperm1.trans hstep

theorem pool_filter_perm (led : List Stocks) (s c : Nat) :
    (led.filter (fun r =>
      decide (r.series = some s ∧ r.client = some c ∧ 0 < r.stocks_count) ||
      decide (r.series = some s ∧ r.client = none ∧ 0 < r.stocks_count))).Perm
      (clientStocks led s c ++ publicStocks led s) := by
  apply filter_or_perm
  intro a _ h
  obtain ⟨h1, h2⟩ := h
  simp only [decide_eq_true_eq] at h1 h2
  rw [h1.2.1] at h2
  exact Option.noConfusion h2.2.1

theorem seriesTotal_perm (l1 l2 : List Stocks) (s : Nat) (h : l1.Perm l2) :
    seriesTotal l1 s = seriesTotal l2 s :=
  ((h.filter _).map _).sum_eq

@[simp]
theorem seriesTotal_append (a b : List Stocks) (s : Nat) :
    seriesTotal (a ++ b) s = seriesTotal a s + seriesTotal b s := by
  simp [seriesTotal]

theorem seriesTotal_eq_sumCount (l : List Stocks) (s : Nat)
    (h : ∀ r ∈ l, r.series = some s) :
    seriesTotal l s = sumCount l := by
  unfold seriesTotal sumCount
  rw [List.filter_eq_self.mpr]
  intro a ha
  simp [h a ha]

theorem seriesTotal_split (led : List Stocks) (s c : Nat) :
    seriesTotal led s =
      sumCount (clientStocks led s c) + sumCount (publicStocks led s) +
        seriesTotal (otherRows led s c) s := by
  have h1 := List.filter_append_perm (fun r =>
    decide (r.series = some s ∧ r.client = some c ∧ 0 < r.stocks_count) ||
    decide (r.series = some s ∧ r.client = none ∧ 0 < r.stocks_count)) led
  have h2 : seriesTotal led s =
      seriesTotal (led.filter (fun r =>
        decide (r.series = some s ∧ r.client = some c ∧ 0 < r.stocks_count) ||
        decide (r.series = some s ∧ r.client = none ∧ 0 < r.stocks_count)) ++
        otherRows led s c) s :=
    (seriesTotal_perm _ _ s h1).symm
  rw [h2, seriesTotal_append,
    seriesTotal_perm _ _ s (pool_filter_perm led s c), seriesTotal_append,
    seriesTotal_eq_sumCount (clientStocks led s c) s
      (fun r hr => (clientStocks_mem led s c r hr).2.1),
    seriesTotal_eq_sumCount (publicStocks led s) s
      (fun r hr => (publicStocks_mem led s r hr).2.1)]

/-! ### Characterization of the allocation step -/

theorem allocate_error_iff (led : List Stocks) (c s : Nat) (q : ℚ) (now : Nat) :
    (∃ e, allocate led c s q now = .error e) ↔
      sumCount (clientStocks led s c) + sumCount (publicStocks led s) < q := by
  unfold allocate
  by_cases h : sumCount (clientStocks led s c) + sumCount (publicStocks led s) < q
  · simp [h]
  · simp [h]

theorem allocate_error_val (led : List Stocks) (c s : Nat) (q : ℚ) (now : Nat)
    (e : InsufficientStock) (h : allocate led c s q now = .error e) :
    e = ⟨s, q, sumCount (clientStocks led s c) + sumCount (publicStocks led s)⟩ := by
  unfold allocate at h
  by_cases hc : sumCount (clientStocks led s c) + sumCount (publicStocks led s) < q
  · simp only [if_pos hc] at h
    exact (Except.error.inj h).symm
  · simp [hc] at h

theorem allocate_ok_eq (led : List Stocks) (c s : Nat) (q : ℚ) (now : Nat)
    (h : ¬ sumCount (clientStocks led s c) + sumCount (publicStocks led s) < q) :
    allocate led c s q now =
      .ok (writeBack led
        (drawDown now q (clientStocks led s c ++ publicStocks led s)).2) := by
  unfold allocate
  simp [h]

theorem allocate_ok_inv (led : List Stocks) (c s : Nat) (q : ℚ) (now : Nat)
    (led' : List Stocks) (h : allocate led c s q now = .ok led') :
    ¬ sumCount (clientStocks led s c) + sumCount (publicStocks led s) < q ∧
      led' = writeBack led
        (drawDown now q (clientStocks led s c ++ publicStocks led s)).2 := by
  unfold allocate at h
  by_cases hc : sumCount (clientStocks led s c) + sumCount (publicStocks led s) < q
  · simp [hc] at h
  · simp only [if_neg hc] at h
    exact ⟨hc, (Except.ok.inj h).symm⟩

theorem pool_pos (led : List Stocks) (s c : Nat) :
    ∀ r ∈ clientStocks led s c ++ publicStocks led s, 0 < r.stocks_count := by
  intro r hr
  rcases List.mem_append.mp hr with h | h
  · exact (clientStocks_mem led s c r h).2.2.2
  · exact (publicStocks_mem led s r h).2.2.2

theorem pool_series (led : List Stocks) (s c : Nat) :
    ∀ r ∈ clientStocks led s c ++ publicStocks led s, r.series = some s := by
  intro r hr
  rcases List.mem_append.mp hr with h | h
  · exact (clientStocks_mem led s c r h).2.1
  · exact (publicStocks_mem led s r h).2.1

theorem mem_series_of_map_eq (l1 l2 : List Stocks) (s : Nat)
    (hmap : l1.map (·.series) = l2.map (·.series))
    (h : ∀ r ∈ l2, r.series = some s) :
    ∀ r ∈ l1, r.series = some s := by
  intro r hr
  have : r.series ∈ l2.map (·.series) := by
    rw [← hmap]
    exact List.mem_map_of_mem _ hr
  obtain ⟨a, ha, hae⟩ := List.mem_map.mp this
  rw [← hae]
  exact h a ha

theorem allocate_conservation (led : List Stocks) (c s : Nat) (q : ℚ) (now : Nat)
    (led' : List Stocks)
    (hnd : (led.map (·.stocks_id)).Nodup) (hq : 0 < q)
    (h : allocate led c s q now = .ok led') :
    seriesTotal led s - seriesTotal led' s = q ∧
      (drawDown now q (clientStocks led s c ++ publicStocks led s)).1 = 0 ∧
      ∀ r ∈ led, r.series ≠ some s → r ∈ led' := by
  obtain ⟨hck, hled'⟩ := allocate_ok_inv led c s q now led' h
  set pool := clientStocks led s c ++ publicStocks led s with hpool_def
  set upd := (drawDown now q pool).2 with hupd_def
  have hpos := pool_pos led s c
  have hser := pool_series led s c
  have hsum_pool : sumCount pool = sumCount (clientStocks led s c) + sumCount (publicStocks led s) := by
    rw [hpool_def, sumCount_append]
  have hrem : (drawDown now q pool).1 = 0 := by
    apply drawDown_exhausts now q pool (le_of_lt hq) hpos
    rw [hsum_pool]
    linarith
  have hsum : sumCount upd = sumCount pool - q := by
    have := drawDown_sum now q pool
    rw [hrem] at this
    rw [hupd_def]
    linarith
  have hid : pool.map (·.stocks_id) = upd.map (·.stocks_id) :=
    (drawDown_ids now q pool).symm
  have hperm := writeBack_perm_pool led upd s c hnd hid
  have hupd_ser : ∀ r ∈ upd, r.series = some s :=
    mem_series_of_map_eq upd pool s (drawDown_seriesField now q pool) hser
  have hst_led' : seriesTotal led' s = sumCount upd + seriesTotal (otherRows led s c) s := by
    rw [hled']
    rw [seriesTotal_perm _ _ s hperm]
    rw [seriesTotal_append]
    rw [seriesTotal_eq_sumCount upd s hupd_ser]
    rfl
  have hst_led := seriesTotal_split led s c
  refine ⟨?_, hrem, ?_⟩
  · rw [hst_led', hst_led, hsum, hsum_pool]
    ring
  · intro r hrled hrs
    have hmem : r ∈ upd ++ otherRows led s c := by
      apply List.mem_append.mpr
      right
      apply List.mem_filter.mpr
      refine ⟨hrled, ?_⟩
      simp [hrs]
    rw [hled']
    exact hperm.symm.subset hmem

/-! ### Lemmas about the transaction bodies -/

theorem addOrdersItem_stocks (db : Db) (oid pid : Nat) (sid : Option Nat) (qty : Int) :
    (addOrdersItem db oid pid sid qty).stocks = db.stocks := rfl

theorem addOrdersItem_history (db : Db) (oid pid : Nat) (sid : Option Nat) (qty : Int) :
    (addOrdersItem db oid pid sid qty).history = db.history := rfl

theorem addHistory_stocks (db : Db) (oid : Nat) (f t : String) (now : Nat) (n : Option String) :
    (addHistory db oid f t now n).stocks = db.stocks := rfl

theorem processItems_rollback (c oid now : Nat) (items : List RawItem) (db : Db)
    (e : OrderError) (h : (processItems c oid now db items).err = some e) :
    (processItems c oid now db items).rollback = true := by
  induction items generalizing db e with
  | nil => simp [processItems] at h
  | cons it rest ih =>
    by_cases h1 : it.malformed = true
    · simp [processItems, h1]
    · by_cases h2 : it.quantity ≤ 0
      · simp [processItems, h1, h2]
      · by_cases h3 : it.product_id ∈ db.products
        · cases hs : it.series_id with
          | none =>
            simp only [processItems, h1, h2, h3, hs, Bool.false_eq_true, if_false,
              if_true, if_pos] at h ⊢
            exact ih _ _ h
          | some sid =>
            cases hls : lookupSeries db sid with
            | none => simp [processItems, h1, h2, h3, hs, hls]
            | some srow =>
              by_cases h4 : srow.product_id ≠ it.product_id
              · simp [processItems, h1, h2, h3, hs, hls, h4]
              · cases haa : applyAllocate (addOrdersItem db oid it.product_id (some sid) it.quantity)
                  c sid (it.quantity : ℚ) now with
                | error e2 => simp [processItems, h1, h2, h3, hs, hls, h4, haa]
                | ok db2 =>
                  simp only [processItems, h1, h2, h3, hs, hls, h4, haa, Bool.false_eq_true,
                    if_false, if_true, if_pos, ite_false, ite_true] at h ⊢
                  exact ih _ _ h
        · simp [processItems, h1, h2, h3]

theorem processCartItems_rollback (c oid now : Nat) (items : List CartItem) (db : Db)
    (e : OrderError) (h : (processCartItems c oid now db items).err = some e) :
    (processCartItems c oid now db items).rollback = true := by
  induction items generalizing db e with
  | nil => simp [processCartItems] at h
  | cons it rest ih =>
    cases hs : it.series with
    | none =>
      simp only [processCartItems, hs] at h ⊢
      exact ih _ _ h
    | some sid =>
      cases haa : applyAllocate (addOrdersItem db oid it.product (some sid) it.cart_item_quantity)
          c sid (it.cart_item_quantity : ℚ) now with
      | error e2 => simp [processCartItems, hs, haa]
      | ok db2 =>
        simp only [processCartItems, hs, haa] at h ⊢
        exact ih _ _ h

theorem writeBack_nonneg (led upd : List Stocks)
    (hled : ∀ r ∈ led, 0 ≤ r.stocks_count) (hupd : ∀ u ∈ upd, 0 ≤ u.stocks_count) :
    ∀ x ∈ writeBack led upd, 0 ≤ x.stocks_count := by
  intro x hx
  obtain ⟨r, hr, hrx⟩ := List.mem_map.mp hx
  cases hfind : upd.find? (fun u => u.stocks_id == r.stocks_id) with
  | none =>
    rw [← hrx, hfind]
    exact hled r hr
  | some u =>
    have hu := List.mem_of_find?_eq_some hfind
    rw [← hrx, hfind]
    exact hupd u hu

theorem allocate_ok_nonneg (led : List Stocks) (c s : Nat) (q : ℚ) (now : Nat)
    (led' : List Stocks) (hled : ∀ r ∈ led, 0 ≤ r.stocks_count)
    (h : allocate led c s q now = .ok led') :
    ∀ r ∈ led', 0 ≤ r.stocks_count := by
  obtain ⟨hck, hled'⟩ := allocate_ok_inv led c s q now led' h
  rw [hled']
  apply writeBack_nonneg _ _ hled
  apply drawDown_nonneg_rows
  intro r hr
  exact le_of_lt (pool_pos led s c r hr)

theorem applyAllocate_ok_nonneg (db : Db) (c sid : Nat) (q : ℚ) (now : Nat) (db' : Db)
    (hdb : ∀ r ∈ db.stocks, 0 ≤ r.stocks_count)
    (h : applyAllocate db c sid q now = .ok db') :
    ∀ r ∈ db'.stocks, 0 ≤ r.stocks_count := by
  unfold applyAllocate at h
  cases ha : allocate db.stocks c sid q now with
  | error e => rw [ha] at h; exact absurd h (by simp)
  | ok st =>
    rw [ha] at h
    have hdb' : db' = { db with stocks := st } := (Except.ok.inj h).symm
    rw [hdb']
    exact allocate_ok_nonneg db.stocks c sid q now st hdb ha

theorem processItems_stocks_nonneg (c oid now : Nat) (items : List RawItem) (db : Db)
    (hdb : ∀ r ∈ db.stocks, 0 ≤ r.stocks_count) :
    ∀ r ∈ (processItems c oid now db items).db.stocks, 0 ≤ r.stocks_count := by
  induction items generalizing db with
  | nil => simpa [processItems] using hdb
  | cons it rest ih =>
    by_cases h1 : it.malformed = true
    · simpa [processItems, h1] using hdb
    · by_cases h2 : it.quantity ≤ 0
      · simpa [processItems, h1, h2] using hdb
      · by_cases h3 : it.product_id ∈ db.products
        · cases hs : it.series_id with
          | none =>
            simp only [processItems, h1, h2, h3, hs, Bool.false_eq_true, if_false,
              if_true, if_pos]
            exact ih _ (by simpa [addOrdersItem_stocks] using hdb)
          | some sid =>
            cases hls : lookupSeries db sid with
            | none => simpa [processItems, h1, h2, h3, hs, hls] using hdb
            | some srow =>
              by_cases h4 : srow.product_id ≠ it.product_id
              · simpa [processItems, h1, h2, h3, hs, hls, h4] using hdb
              · cases haa : applyAllocate (addOrdersItem db oid it.product_id (some sid) it.quantity)
                  c sid (it.quantity : ℚ) now with
                | error e2 =>
                  simpa [processItems, h1, h2, h3, hs, hls, h4, haa, addOrdersItem_stocks]
                    using hdb
                | ok db2 =>
                  simp only [processItems, h1, h2, h3, hs, hls, h4, haa, Bool.false_eq_true,
                    if_false, if_true, if_pos, ite_false, ite_true]
                  apply ih
                  exact applyAllocate_ok_nonneg _ c sid _ now db2
                    (by simpa [addOrdersItem_stocks] using hdb) haa
        · simpa [processItems, h1, h2, h3] using hdb

theorem processCartItems_stocks_nonneg (c oid now : Nat) (items : List CartItem) (db : Db)
    (hdb : ∀ r ∈ db.stocks, 0 ≤ r.stocks_count) :
    ∀ r ∈ (processCartItems c oid now db items).db.stocks, 0 ≤ r.stocks_count := by
  induction items generalizing db with
  | nil => simpa [processCartItems] using hdb
  | cons it rest ih =>
    cases hs : it.series with
    | none =>
      simp only [processCartItems, hs]
      exact ih _ (by simpa [addOrdersItem_stocks] using hdb)
    | some sid =>
      cases haa : applyAllocate (addOrdersItem db oid it.product (some sid) it.cart_item_quantity)
          c sid (it.cart_item_quantity : ℚ) now with
      | error e2 =>
        simpa [processCartItems, hs, haa, addOrdersItem_stocks] using hdb
      | ok db2 =>
        simp only [processCartItems, hs, haa]
        apply ih
        exact applyAllocate_ok_nonneg _ c sid _ now db2
          (by simpa [addOrdersItem_stocks] using hdb) haa

theorem processItems_history (c oid now : Nat) (items : List RawItem) (db : Db) :
    (processItems c oid now db items).db.history = db.history := by
  induction items generalizing db with
  | nil => simp [processItems]
  | cons it rest ih =>
    by_cases h1 : it.malformed = true
    · simp [processItems, h1]
    · by_cases h2 : it.quantity ≤ 0
      · simp [processItems, h1, h2]
      · by_cases h3 : it.product_id ∈ db.products
        · cases hs : it.series_id with
          | none =>
            simp only [processItems, h1, h2, h3, hs, Bool.false_eq_true, if_false,
              if_true, if_pos]
            rw [ih]
            rfl
          | some sid =>
            cases hls : lookupSeries db sid with
            | none => simp [processItems, h1, h2, h3, hs, hls]
            | some srow =>
              by_cases h4 : srow.product_id ≠ it.product_id
              · simp [processItems, h1, h2, h3, hs, hls, h4]
              · cases haa : applyAllocate (addOrdersItem db oid it.product_id (some sid) it.quantity)
                  c sid (it.quantity : ℚ) now with
                | error e2 => simp [processItems, h1, h2, h3, hs, hls, h4, haa, addOrdersItem_history]
                | ok db2 =>
                  simp only [processItems, h1, h2, h3, hs, hls, h4, haa, Bool.false_eq_true,
                    if_false, if_true, if_pos, ite_false, ite_true]
                  rw [ih]
                  have : db2.history = db.history := by
                    unfold applyAllocate at haa
                    cases ha : allocate (addOrdersItem db oid it.product_id (some sid) it.quantity).stocks
                        c sid (it.quantity : ℚ) now with
                    | error e3 => rw [ha] at haa; exact absurd haa (by simp)
                    | ok st =>
                      rw [ha] at haa
                      have := (Except.ok.inj haa).symm
                      rw [this]
                      rfl
                  rw [this]
        · simp [processItems, h1, h2, h3]

theorem processCartItems_history (c oid now : Nat) (items : List CartItem) (db : Db) :
    (processCartItems c oid now db items).db.history = db.history := by
  induction items generalizing db with
  | nil => simp [processCartItems]
  | cons it rest ih =>
    cases hs : it.series with
    | none =>
      simp only [processCartItems, hs]
      rw [ih]
      rfl
    | some sid =>
      cases haa : applyAllocate (addOrdersItem db oid it.product (some sid) it.cart_item_quantity)
          c sid (it.cart_item_quantity : ℚ) now with
      | error e2 => simp [processCartItems, hs, haa, addOrdersItem_history]
      | ok db2 =>
        simp only [processCartItems, hs, haa]
        rw [ih]
        unfold applyAllocate at haa
        cases ha : allocate (addOrdersItem db oid it.product (some sid) it.cart_item_quantity).stocks
            c sid (it.cart_item_quantity : ℚ) now with
        | error e3 => rw [ha] at haa; exact absurd haa (by simp)
        | ok st =>
          rw [ha] at haa
          rw [(Except.ok.inj haa).symm]
          rfl

theorem ordersTxn_rollback (db : Db) (cid : Nat) (p : OrderPayload) (now nd : Nat)
    (e : OrderError) (h : (ordersTxn db cid p now nd).err = some e) :
    (ordersTxn db cid p now nd).rollback = true := by
  unfold ordersTxn at h ⊢
  cases hst : (processItems cid db.nextOrdersId now (ordersTxnStart db cid p nd) p.items).err with
  | some e2 =>
    simp only [hst] at h ⊢
    exact processItems_rollback _ _ _ _ _ _ hst
  | none =>
    simp only [hst] at h
    exact Option.noConfusion h

theorem cartTxn_rollback (db : Db) (cid cartId : Nat) (p : CartPayload) (now nd : Nat)
    (e : OrderError) (h : (cartTxn db cid cartId p now nd).err = some e) :
    (cartTxn db cid cartId p now nd).rollback = true := by
  unfold cartTxn at h ⊢
  cases hst : (processCartItems cid db.nextOrdersId now (cartTxnStart db cid p nd)
      (db.cartItems.filter (fun ci => ci.cart == cartId))).err with
  | some e2 =>
    simp only [hst] at h ⊢
    exact processCartItems_rollback _ _ _ _ _ _ hst
  | none =>
    simp only [hst] at h
    exact Option.noConfusion h

theorem ordersPost_error_db (db : Db) (p : OrderPayload) (now nd : Nat) (e : OrderError)
    (h : (ordersPost db p now nd).2 = .error e) :
    (ordersPost db p now nd).1 = db := by
  unfold ordersPost at h ⊢
  cases hc : p.client_id with
  | none => rfl
  | some cid =>
    simp only [hc] at h ⊢
    by_cases h1 : p.items.isEmpty
    · simp [h1]
    · by_cases h2 : cid ∈ db.clients
      · simp only [h1, h2, if_false, if_true, if_pos, ite_false, ite_true] at h ⊢
        cases hst : (ordersTxn db cid p now nd).err with
        | some e2 =>
          have hrb := ordersTxn_rollback db cid p now nd e2 hst
          simp [hst, hrb]
        | none => simp [hst] at h
      · simp [h1, h2]

theorem cartCheckout_error_db (db : Db) (cid cartId : Nat) (p : CartPayload) (now nd : Nat)
    (e : OrderError) (h : (cartCheckout db cid cartId p now nd).2 = .error e) :
    (cartCheckout db cid cartId p now nd).1 = db := by
  unfold cartCheckout at h ⊢
  by_cases h1 : (db.cartItems.filter (fun ci => ci.cart == cartId)).isEmpty
  · simp [h1]
  · simp only [h1, if_false, if_true, if_pos, ite_false, ite_true] at h ⊢
    cases hst : (cartTxn db cid cartId p now nd).err with
    | some e2 =>
      have hrb := cartTxn_rollback db cid cartId p now nd e2 hst
      simp [hst, hrb]
    | none => simp [hst] at h

theorem ordersTxn_stocks_nonneg (db : Db) (cid : Nat) (p : OrderPayload) (now nd : Nat)
    (hdb : ∀ r ∈ db.stocks, 0 ≤ r.stocks_count) :
    ∀ r ∈ (ordersTxn db cid p now nd).db.stocks, 0 ≤ r.stocks_count := by
  unfold ordersTxn
  have hstart : ∀ r ∈ (ordersTxnStart db cid p nd).stocks, 0 ≤ r.stocks_count := hdb
  have hitems := processItems_stocks_nonneg cid db.nextOrdersId now p.items
    (ordersTxnStart db cid p nd) hstart
  cases hst : (processItems cid db.nextOrdersId now (ordersTxnStart db cid p nd) p.items).err with
  | some e2 => simpa [hst] using hitems
  | none => simpa [hst, addHistory_stocks] using hitems

theorem cartTxn_stocks_nonneg (db : Db) (cid cartId : Nat) (p : CartPayload) (now nd : Nat)
    (hdb : ∀ r ∈ db.stocks, 0 ≤ r.stocks_count) :
    ∀ r ∈ (cartTxn db cid cartId p now nd).db.stocks, 0 ≤ r.stocks_count := by
  unfold cartTxn
  have hstart : ∀ r ∈ (cartTxnStart db cid p nd).stocks, 0 ≤ r.stocks_count := hdb
  have hitems := processCartItems_stocks_nonneg cid db.nextOrdersId now
    (db.cartItems.filter (fun ci => ci.cart == cartId)) (cartTxnStart db cid p nd) hstart
  cases hst : (processCartItems cid db.nextOrdersId now (cartTxnStart db cid p nd)
      (db.cartItems.filter (fun ci => ci.cart == cartId))).err with
  | some e2 => simpa [hst] using hitems
  | none => simpa [hst, addHistory_stocks] using hitems

theorem ordersPost_stocks_nonneg (db : Db) (p : OrderPayload) (now nd : Nat)
    (hdb : ∀ r ∈ db.stocks, 0 ≤ r.stocks_count) :
    ∀ r ∈ (ordersPost db p now nd).1.stocks, 0 ≤ r.stocks_count := by
  unfold ordersPost
  cases hc : p.client_id with
  | none => exact hdb
  | some cid =>
    by_cases h1 : p.items.isEmpty
    · simpa [h1] using hdb
    · by_cases h2 : cid ∈ db.clients
      · simp only [h1, h2, if_false, if_true, if_pos, ite_false, ite_true]
        have htxn := ordersTxn_stocks_nonneg db cid p now nd hdb
        cases hst : (ordersTxn db cid p now nd).err with
        | some e2 =>
          by_cases hrb : (ordersTxn db cid p now nd).rollback = true
          · simpa [hst, hrb] using hdb
          · simpa [hst, hrb] using htxn
        | none =>
          by_cases hrb : (ordersTxn db cid p now nd).rollback = true
          · simpa [hst, hrb] using hdb
          · simpa [hst, hrb] using htxn
      · simpa [h1, h2] using hdb

theorem cartCheckout_stocks_nonneg (db : Db) (cid cartId : Nat) (p : CartPayload) (now nd : Nat)
    (hdb : ∀ r ∈ db.stocks, 0 ≤ r.stocks_count) :
    ∀ r ∈ (cartCheckout db cid cartId p now nd).1.stocks, 0 ≤ r.stocks_count := by
  unfold cartCheckout
  by_cases h1 : (db.cartItems.filter (fun ci => ci.cart == cartId)).isEmpty
  · simpa [h1] using hdb
  · simp only [h1, if_false, if_true, if_pos, ite_false, ite_true]
    have htxn := cartTxn_stocks_nonneg db cid cartId p now nd hdb
    cases hst : (cartTxn db cid cartId p now nd).err with
    | some e2 =>
      by_cases hrb : (cartTxn db cid cartId p now nd).rollback = true
      · simpa [hst, hrb] using hdb
      · simpa [hst, hrb] using htxn
    | none =>
      by_cases hrb : (cartTxn db cid cartId p now nd).rollback = true
      · simpa [hst, hrb] using hdb
      · simpa [hst, hrb] using htxn

theorem ordersPost_ok_history (db : Db) (p : OrderPayload) (now nd : Nat) (oid : Nat)
    (h : (ordersPost db p now nd).2 = .ok oid) :
    ∃ entry : OrderStatusHistory,
      (ordersPost db p now nd).1.history = db.history ++ [entry] ∧
        entry.orders = db.nextOrdersId ∧
        entry.order_status_history_from_stat = clipString (orDefault p.status_from "Создан") 30 ∧
        entry.order_status_history_to_status = clipString (statusValueOrders p.status) 30 := by
  unfold ordersPost at h ⊢
  cases hc : p.client_id with
  | none => simp [hc] at h
  | some cid =>
    simp only [hc] at h ⊢
    by_cases h1 : p.items.isEmpty
    · simp [h1] at h
    · by_cases h2 : cid ∈ db.clients
      · cases hst : (ordersTxn db cid p now nd).err with
        | some e2 =>
          exfalso
          simp [h1, h2, hst] at h
        | none =>
          have hrb : (ordersTxn db cid p now nd).rollback = false := by
            unfold ordersTxn at hst ⊢
            cases hst2 : (processItems cid db.nextOrdersId now
                (ordersTxnStart db cid p nd) p.items).err with
            | some e3 =>
              simp only [hst2] at hst
              exact Option.noConfusion hst
            | none => simp only [hst2]
          have hdbform : (ordersTxn db cid p now nd).db.history =
              (ordersTxnStart db cid p nd).history ++
                [⟨(processItems cid db.nextOrdersId now (ordersTxnStart db cid p nd)
                    p.items).db.nextHistoryId,
                  db.nextOrdersId, clipString (orDefault p.status_from "Создан") 30,
                  clipString (statusValueOrders p.status) 30, now,
                  some (clipString (orDefault p.status_note "Created via API") 30)⟩] := by
            unfold ordersTxn at hst ⊢
            cases hst2 : (processItems cid db.nextOrdersId now
                (ordersTxnStart db cid p nd) p.items).err with
            | some e3 =>
              simp only [hst2] at hst
              exact Option.noConfusion hst
            | none =>
              simp only [hst2]
              unfold addHistory
              simp only
              rw [processItems_history]
          refine ⟨⟨(processItems cid db.nextOrdersId now (ordersTxnStart db cid p nd)
              p.items).db.nextHistoryId, db.nextOrdersId,
              clipString (orDefault p.status_from "Создан") 30,
              clipString (statusValueOrders p.status) 30, now,
              some (clipString (orDefault p.status_note "Created via API") 30)⟩,
            ?_, rfl, rfl, rfl⟩
          simp only [h1, h2, hst, hrb, if_false, if_true, if_pos, ite_false, ite_true,
            Bool.false_eq_true]
          exact hdbform
      · simp [h1, h2] at h

/-! ### Lemmas about the partial-update operation and serialization -/

theorem orderDetailPatch_changed (o : Orders) (h : List OrderStatusHistory) (nid : Nat)
    (p : PatchPayload) (now : Nat) (hc : statusChanged o p = true) :
    orderDetailPatch o h nid p now =
      (patchedOrder o p,
        h ++ [⟨nid, o.orders_id, clipString o.orders_status 30,
          clipString (newStatusOf o p) 30, now, _clip p.status_note 30⟩],
        nid + 1) := by
  unfold orderDetailPatch
  simp [hc]

theorem orderDetailPatch_unchanged (o : Orders) (h : List OrderStatusHistory) (nid : Nat)
    (p : PatchPayload) (now : Nat) (hc : statusChanged o p = false) :
    orderDetailPatch o h nid p now = (patchedOrder o p, h, nid) := by
  unfold orderDetailPatch
  simp [hc]

theorem newStatusOf_of_unchanged (o : Orders) (p : PatchPayload)
    (hc : statusChanged o p = false) :
    newStatusOf o p = o.orders_status := by
  cases hs : p.status with
  | none => simp [newStatusOf, hs]
  | some s =>
    have hns : ¬(clipString (pyStrip s) 30 ≠ "" ∧ clipString (pyStrip s) 30 ≠ o.orders_status) := by
      simpa [statusChanged, hs] using hc
    simp [newStatusOf, hs, hns]

theorem applyPatchList_hist_length (ps : List (PatchPayload × Nat)) (o : Orders)
    (h : List OrderStatusHistory) (nid : Nat) :
    (applyPatchList (o, h, nid) ps).2.1.length = h.length + numStatusChanges o ps := by
  induction ps generalizing o h nid with
  | nil => simp [applyPatchList, numStatusChanges]
  | cons pn rest ih =>
    obtain ⟨p, now⟩ := pn
    by_cases hc : statusChanged o p = true
    · rw [show applyPatchList (o, h, nid) ((p, now) :: rest) =
          applyPatchList (orderDetailPatch o h nid p now) rest from rfl,
        orderDetailPatch_changed o h nid p now hc, ih]
      simp [numStatusChanges, hc]
      omega
    · have hc' : statusChanged o p = false := by simpa using hc
      rw [show applyPatchList (o, h, nid) ((p, now) :: rest) =
          applyPatchList (orderDetailPatch o h nid p now) rest from rfl,
        orderDetailPatch_unchanged o h nid p now hc', ih]
      simp [numStatusChanges, hc']

theorem serializeStatusHistory_spec (hist : List OrderStatusHistory) (oid : Nat) :
    (serializeStatusHistory hist oid).Pairwise
      (fun a b => a.order_status_history_id ≤ b.order_status_history_id) ∧
      (serializeStatusHistory hist oid).Perm
        (hist.filter (fun e => e.orders == oid)) := by
  constructor
  · have hs := @List.sorted_mergeSort OrderStatusHistory
      (fun a b : OrderStatusHistory =>
        decide (a.order_status_history_id ≤ b.order_status_history_id))
      (by
        intro a b c hab hbc
        simp only [decide_eq_true_eq] at hab hbc ⊢
        omega)
      (by
        intro a b
        simp only [Bool.or_eq_true, decide_eq_true_eq]
        omega)
      (hist.filter (fun e => e.orders == oid))
    refine List.Pairwise.imp ?_ hs
    intro a b hab
    simpa using hab
  · exact List.mergeSort_perm _ _

theorem pool_client_drained (led : List Stocks) (s c : Nat) (q : ℚ) (now : Nat)
    (hne : (drawDown now (drawDown now q (clientStocks led s c)).1 (publicStocks led s)).2 ≠
      publicStocks led s) :
    ∀ r ∈ (drawDown now q (clientStocks led s c)).2, r.stocks_count = 0 := by
  by_cases hrem : (drawDown now q (clientStocks led s c)).1 ≤ 0
  · exact absurd
      (congrArg Prod.snd (drawDown_noop now _ (publicStocks led s) hrem)) hne
  · exact drawDown_drained now q _
      (fun x hx => (clientStocks_mem led s c x hx).2.2.2) (by linarith)

/-! ### The claims -/

/-- C1: Conservation.  For an order line with series `s` and requested
quantity `q > 0`, when the availability check passes (the allocation
step succeeds), the total ledger quantity for that series decreases by
exactly `q`, the greedy loop stops with the remaining request at exactly
zero, and every ledger row of a different series survives unchanged, so
the deduction is summed over exactly the rows touched. -/
theorem claim_C1_conservation (led : List Stocks) (c s : Nat) (q : ℚ) (now : Nat)
    (led' : List Stocks) (hnd : (led.map (·.stocks_id)).Nodup) (hq : 0 < q)
    (hok : allocate led c s q now = .ok led') :
    seriesTotal led s - seriesTotal led' s = q ∧
      (drawDown now q (clientStocks led s c ++ publicStocks led s)).1 = 0 ∧
      ∀ r ∈ led, r.series ≠ some s → r ∈ led' :=
  allocate_conservation led c s q now led' hnd hq hok

/-- C1 witness: on the concrete ledger `ledW`, allocating 4 units of
series 7 to client 2 succeeds, the series total drops from 8 to 4, and
the series-8 row is untouched. -/
theorem claim_C1_conservation_witness :
    ((ledW.map (·.stocks_id)).Nodup ∧ (0:ℚ) < 4 ∧ allocate ledW 2 7 4 9 = .ok ledW2) ∧
      (seriesTotal ledW 7 - seriesTotal ledW2 7 = 4 ∧
        (drawDown 9 4 (clientStocks ledW 7 2 ++ publicStocks ledW 7)).1 = 0 ∧
        ∀ r ∈ ledW, r.series ≠ some 7 → r ∈ ledW2) := by
  have h1 : (ledW.map (·.stocks_id)).Nodup := by
    simp [ledW]
  have h2 : (0:ℚ) < 4 := by norm_num
  have h3 : allocate ledW 2 7 4 9 = .ok ledW2 := by
    simp [allocate, ledW, ledW2, clientStocks, publicStocks, sumCount, drawDown, writeBack,
      List.filter]
    norm_num
  exact ⟨⟨h1, h2, h3⟩, claim_C1_conservation ledW 2 7 4 9 ledW2 h1 h2 h3⟩

/-- C2: Preference order.  The candidate pool of an allocation is the
client-owned rows followed by the public rows (first conjunct: a
successful allocation draws down exactly that concatenated pool; second
conjunct: the combined draw-down processes the client rows first and
passes only the leftover request to the public rows); the greedy
draw-down never touches a public row while a client-owned row still has
positive quantity (third conjunct: if the public rows changed at all,
every client row was drained to exactly zero); concretely, with 3
client-owned and 5 public units of one series, a request for 4 deducts
all 3 client units and exactly 1 public unit. -/
theorem claim_C2_preference :
    (∀ (led : List Stocks) (c s : Nat) (q : ℚ) (now : Nat),
        ¬ sumCount (clientStocks led s c) + sumCount (publicStocks led s) < q →
        allocate led c s q now =
          .ok (writeBack led
            (drawDown now q (clientStocks led s c ++ publicStocks led s)).2)) ∧
    (∀ (led : List Stocks) (c s : Nat) (q : ℚ) (now : Nat),
        drawDown now q (clientStocks led s c ++ publicStocks led s) =
          ((drawDown now (drawDown now q (clientStocks led s c)).1 (publicStocks led s)).1,
            (drawDown now q (clientStocks led s c)).2 ++
              (drawDown now (drawDown now q (clientStocks led s c)).1
                (publicStocks led s)).2)) ∧
    (∀ (led : List Stocks) (c s : Nat) (q : ℚ) (now : Nat),
        (drawDown now (drawDown now q (clientStocks led s c)).1 (publicStocks led s)).2 ≠
            publicStocks led s →
        ∀ r ∈ (drawDown now q (clientStocks led s c)).2, r.stocks_count = 0) ∧
    allocate ledPref 2 7 4 9 =
      .ok [⟨1, some 2, some 7, true, 0, 9⟩, ⟨2, none, some 7, false, 4, 9⟩] := by
  refine ⟨fun led c s q now h => allocate_ok_eq led c s q now h,
    fun led c s q now => drawDown_append now q _ _,
    fun led c s q now => pool_client_drained led s c q now, ?_⟩
  simp [allocate, ledPref, clientStocks, publicStocks, sumCount, drawDown, writeBack,
    List.filter]
  norm_num

/-- C2 witness: on the concrete two-row ledger `ledPref`, the public row
does change (5 becomes 4), and the theorem then forces every client row
of the draw-down result to be exactly zero. -/
theorem claim_C2_preference_witness :
    ((drawDown 9 (drawDown 9 4 (clientStocks ledPref 7 2)).1 (publicStocks ledPref 7)).2 ≠
        publicStocks ledPref 7) ∧
      (∀ r ∈ (drawDown 9 4 (clientStocks ledPref 7 2)).2, r.stocks_count = 0) := by
  have hne : (drawDown 9 (drawDown 9 4 (clientStocks ledPref 7 2)).1
      (publicStocks ledPref 7)).2 ≠ publicStocks ledPref 7 := by
    simp [ledPref, clientStocks, publicStocks, drawDown, List.filter]
    norm_num
  exact ⟨hne, claim_C2_preference.2.2.1 ledPref 2 7 4 9 hne⟩

/-- C9: Concurrent oversell window.  Modelling the unserialized
interleaving in which two checkout transactions both read the ledger
before either writes: on a series with a single public unit, both
availability checks for one unit pass and both draw-downs deduct, and
the committed state shows a total decrease of only 1 although 2 units
were promised — the check-then-act window of the code (separate
availability read and row writes, no lock or atomic conditional write)
produces oversell. -/
theorem claim_C9_concurrent_oversell :
    (∃ led1, allocate raceLed 10 7 1 5 = .ok led1) ∧
      (∃ led2, allocate raceLed 11 7 1 5 = .ok led2) ∧
      seriesTotal raceLed 7 = 1 ∧
      seriesTotal (concurrentCommit raceLed 10 11 7 1 1 5) 7 = 0 := by
  refine ⟨⟨[⟨1, none, some 7, false, 0, 5⟩], ?_⟩, ⟨[⟨1, none, some 7, false, 0, 5⟩], ?_⟩,
    ?_, ?_⟩
  all_goals
    simp [allocate, raceLed, concurrentCommit, clientStocks, publicStocks, sumCount,
      drawDown, writeBack, seriesTotal, List.filter]
  all_goals norm_num

/-- C3: Atomicity on failure.  Whenever the order-creation or the
cart-checkout operation returns an error — any of the validation or
allocation failures, including ones on a later line after earlier lines
already deducted stock — the committed database equals the original one:
no order row, order line, history entry or stock mutation survives, and
in the cart pathway the cart items are untouched as well. -/
theorem claim_C3_atomic_rollback :
    (∀ (db : Db) (p : OrderPayload) (now nd : Nat) (e : OrderError),
        (ordersPost db p now nd).2 = .error e → (ordersPost db p now nd).1 = db) ∧
    (∀ (db : Db) (cid cartId : Nat) (p : CartPayload) (now nd : Nat) (e : OrderError),
        (cartCheckout db cid cartId p now nd).2 = .error e →
          (cartCheckout db cid cartId p now nd).1 = db ∧
            (cartCheckout db cid cartId p now nd).1.cartItems = db.cartItems) := by
  refine ⟨ordersPost_error_db, ?_⟩
  intro db cid cartId p now nd e h
  have hdb := cartCheckout_error_db db cid cartId p now nd e h
  exact ⟨hdb, by rw [hdb]⟩

/-- C3 witness: a concrete two-line order whose second line hits
insufficient stock after the first line already deducted 3 units rolls
the whole database back, and a concrete failing cart checkout leaves the
database — cart items included — untouched. -/
theorem claim_C3_atomic_rollback_witness :
    ((ordersPost dbW payloadFailW 9 20).2 = .error (.insufficientStock ⟨7, 9, 5⟩) ∧
        (ordersPost dbW payloadFailW 9 20).1 = dbW) ∧
      ((cartCheckout cartDbW 2 3 cartPayloadW 9 20).2 =
          .error (.insufficientStock ⟨7, 9, 8⟩) ∧
        (cartCheckout cartDbW 2 3 cartPayloadW 9 20).1 = cartDbW ∧
        (cartCheckout cartDbW 2 3 cartPayloadW 9 20).1.cartItems = cartDbW.cartItems) := by
  have h1 : (ordersPost dbW payloadFailW 9 20).2 = .error (.insufficientStock ⟨7, 9, 5⟩) := by
    simp [ordersPost, ordersTxn, ordersTxnStart, ordersTxnOrder, statusValueOrders, orDefault,
      pyStrip, pySlice, pyLen, clipString, _clip, processItems, lookupSeries, addOrdersItem,
      applyAllocate, allocate, clientStocks, publicStocks, sumCount, drawDown, writeBack,
      addHistory, dbW, payloadFailW, itemsFailW, ledW, List.filter, List.find?]
    norm_num [processItems, lookupSeries, addOrdersItem,
      applyAllocate, allocate, clientStocks, publicStocks, sumCount, drawDown, writeBack,
      addHistory, List.filter, List.find?]
    simp
    norm_num [processItems, lookupSeries, addOrdersItem,
      applyAllocate, allocate, clientStocks, publicStocks, sumCount, drawDown, writeBack,
      addHistory, List.filter, List.find?]
  have h2 : (cartCheckout cartDbW 2 3 cartPayloadW 9 20).2 =
      .error (.insufficientStock ⟨7, 9, 8⟩) := by
    simp [cartCheckout, cartTxn, cartTxnStart, cartTxnOrder, cartCancelReason, cartHistoryNote,
      statusValueCart, orDefault, pyStrip, pySlice, pyLen, clipString, _clip, processCartItems,
      addOrdersItem, applyAllocate, allocate, clientStocks, publicStocks, sumCount, drawDown,
      writeBack, addHistory, cartDbW, cartPayloadW, ledW, List.filter]
    norm_num
  have h3 := claim_C3_atomic_rollback.2 cartDbW 2 3 cartPayloadW 9 20 _ h2
  exact ⟨⟨h1, claim_C3_atomic_rollback.1 dbW payloadFailW 9 20 _ h1⟩, ⟨h2, h3.1, h3.2⟩⟩

/-- C4: Insufficient stock.  The allocation step for a line fails (with
some error) exactly when the requested quantity strictly exceeds the sum
of client-owned plus public stock for the series at that point; the
error carries the series, the requested and the available amounts; and
when a line fails this way, the processing step for that line leaves the
stock ledger exactly as it was. -/
theorem claim_C4_insufficient :
    (∀ (led : List Stocks) (c s : Nat) (q : ℚ) (now : Nat),
        (∃ e, allocate led c s q now = .error e) ↔
          sumCount (clientStocks led s c) + sumCount (publicStocks led s) < q) ∧
    (∀ (led : List Stocks) (c s : Nat) (q : ℚ) (now : Nat) (e : InsufficientStock),
        allocate led c s q now = .error e →
          e = ⟨s, q, sumCount (clientStocks led s c) + sumCount (publicStocks led s)⟩) ∧
    (∀ (db : Db) (c oid now : Nat) (it : RawItem) (sid : Nat) (srow : Series)
        (e : InsufficientStock),
        it.malformed = false → ¬ it.quantity ≤ 0 → it.product_id ∈ db.products →
        it.series_id = some sid → lookupSeries db sid = some srow →
        srow.product_id = it.product_id →
        applyAllocate (addOrdersItem db oid it.product_id (some sid) it.quantity) c sid
            (it.quantity : ℚ) now = .error e →
        (processItems c oid now db [it]).err = some (.insufficientStock e) ∧
          (processItems c oid now db [it]).db.stocks = db.stocks) := by
  refine ⟨allocate_error_iff, allocate_error_val, ?_⟩
  intro db c oid now it sid srow e h1 h2 h3 h4 h5 h6 h7
  constructor <;>
    simp [processItems, h1, h2, h3, h4, h5, h6, h7, addOrdersItem_stocks]

/-- C4 witness: on `ledPref` (8 units in total) a request of 100 fails,
the error carries requested 100 and available 8, and the single-line
processing step leaves the ledger unchanged. -/
theorem claim_C4_insufficient_witness :
    (sumCount (clientStocks ledPref 7 2) + sumCount (publicStocks ledPref 7) < 100) ∧
      (∃ e, allocate ledPref 2 7 100 9 = .error e) ∧
      allocate ledPref 2 7 100 9 = .error ⟨7, 100, 8⟩ ∧
      (⟨7, 100, 8⟩ : InsufficientStock) =
        ⟨7, 100, sumCount (clientStocks ledPref 7 2) + sumCount (publicStocks ledPref 7)⟩ := by
  have hlt : sumCount (clientStocks ledPref 7 2) + sumCount (publicStocks ledPref 7) <
      (100:ℚ) := by
    simp [ledPref, clientStocks, publicStocks, sumCount, List.filter]
    norm_num
  have herr : allocate ledPref 2 7 100 9 = .error ⟨7, 100, 8⟩ := by
    simp [allocate, ledPref, clientStocks, publicStocks, sumCount, drawDown, writeBack,
      List.filter]
    norm_num
  exact ⟨hlt, (claim_C4_insufficient.1 ledPref 2 7 100 9).mpr hlt, herr,
    claim_C4_insufficient.2.1 ledPref 2 7 100 9 _ herr⟩

/-- C5: Row non-negativity.  Every stock row stays non-negative: through
a successful allocation step (each deduction is clamped by the row
quantity), and through the full order-creation and cart-checkout
operations on every success and failure path. -/
theorem claim_C5_nonneg :
    (∀ (led : List Stocks) (c s : Nat) (q : ℚ) (now : Nat) (led' : List Stocks),
        (∀ r ∈ led, 0 ≤ r.stocks_count) → allocate led c s q now = .ok led' →
        ∀ r ∈ led', 0 ≤ r.stocks_count) ∧
    (∀ (db : Db) (p : OrderPayload) (now nd : Nat),
        (∀ r ∈ db.stocks, 0 ≤ r.stocks_count) →
        ∀ r ∈ (ordersPost db p now nd).1.stocks, 0 ≤ r.stocks_count) ∧
    (∀ (db : Db) (cid cartId : Nat) (p : CartPayload) (now nd : Nat),
        (∀ r ∈ db.stocks, 0 ≤ r.stocks_count) →
        ∀ r ∈ (cartCheckout db cid cartId p now nd).1.stocks, 0 ≤ r.stocks_count) :=
  ⟨allocate_ok_nonneg, ordersPost_stocks_nonneg, cartCheckout_stocks_nonneg⟩

/-- C5 witness: the concrete database `dbW` has non-negative stock, and
after the successful concrete order creation every row is still
non-negative. -/
theorem claim_C5_nonneg_witness :
    (∀ r ∈ dbW.stocks, 0 ≤ r.stocks_count) ∧
      (∀ r ∈ (ordersPost dbW payloadOkW 9 20).1.stocks, 0 ≤ r.stocks_count) := by
  have hdb : ∀ r ∈ dbW.stocks, 0 ≤ r.stocks_count := by
    intro r hr
    simp [dbW, ledW] at hr
    rcases hr with hr | hr | hr <;> rw [hr] <;> norm_num
  exact ⟨hdb, claim_C5_nonneg.2.1 dbW payloadOkW 9 20 hdb⟩

/-- C6 counterexample: the claim appends a history entry whenever a
status is supplied and differs from the current status; but on the
concrete order with status `pending`, supplying the whitespace-only
status (which is supplied, and differs from `pending`) appends no
history entry at all, because the view first strips the value and drops
it when the result is empty. -/
theorem claim_C6_counterexample :
    pBlankW.status = some "   " ∧ ("   " : String) ≠ oW.orders_status ∧
      (orderDetailPatch oW [] 0 pBlankW 5).2.1 = [] := by
  refine ⟨rfl, by simp [oW], ?_⟩
  simp [orderDetailPatch, statusChanged, pBlankW, oW, pyStrip, clipString, pySlice, pyLen]

/-- C6 (amended): a StatusHistoryEntry (from the old status, to the new
one, with the optional clipped note) is appended if and only if a status
is supplied and its stripped, 30-character-clipped value is non-empty
and differs from the current status; updates without an effective status
change set the date and cancel-reason fields that are present in the
payload, append no entry, and leave the status unchanged (no automatic
status-date coupling). -/
theorem claim_C6_status_update :
    (∀ (o : Orders) (h : List OrderStatusHistory) (nid : Nat) (p : PatchPayload) (now : Nat),
        (orderDetailPatch o h nid p now).2.1 ≠ h ↔ statusChanged o p = true) ∧
    (∀ (o : Orders) (h : List OrderStatusHistory) (nid : Nat) (p : PatchPayload) (now : Nat),
        statusChanged o p = true →
        orderDetailPatch o h nid p now =
          (patchedOrder o p,
            h ++ [⟨nid, o.orders_id, clipString o.orders_status 30,
              clipString (newStatusOf o p) 30, now, _clip p.status_note 30⟩],
            nid + 1)) ∧
    (∀ (o : Orders) (h : List OrderStatusHistory) (nid : Nat) (p : PatchPayload) (now : Nat),
        statusChanged o p = false →
        (orderDetailPatch o h nid p now).2.1 = h ∧
          (orderDetailPatch o h nid p now).1.orders_status = o.orders_status) ∧
    (∀ (o : Orders) (p : PatchPayload),
        (patchedOrder o p).orders_shipped_at = p.shipped_at.getD o.orders_shipped_at ∧
        (patchedOrder o p).orders_delivered_at = p.delivered_at.getD o.orders_delivered_at ∧
        (p.status = none → (patchedOrder o p).orders_status = o.orders_status)) := by
  refine ⟨?_, orderDetailPatch_changed, ?_, ?_⟩
  · intro o h nid p now
    constructor
    · intro hne
      by_contra hc
      have hc' : statusChanged o p = false := by simpa using hc
      rw [orderDetailPatch_unchanged o h nid p now hc'] at hne
      exact hne rfl
    · intro hc
      rw [orderDetailPatch_changed o h nid p now hc]
      intro heq
      have := congrArg List.length heq
      simp at this
  · intro o h nid p now hc
    rw [orderDetailPatch_unchanged o h nid p now hc]
    exact ⟨rfl, by simp [patchedOrder, newStatusOf_of_unchanged o p hc]⟩
  · intro o p
    refine ⟨rfl, rfl, ?_⟩
    intro hs
    simp [patchedOrder, newStatusOf, hs]

/-- C6 witness: on the concrete order with status `pending`, the update
supplying status `shipped` with a note appends exactly the entry from
`pending` to `shipped`, and the date-only update `pShipW` sets the
shipped date, appends nothing and keeps the status. -/
theorem claim_C6_status_update_witness :
    statusChanged oW pChangeW = true ∧
      orderDetailPatch oW [] 0 pChangeW 5 =
        (patchedOrder oW pChangeW,
          [] ++ [⟨0, oW.orders_id, clipString oW.orders_status 30,
            clipString (newStatusOf oW pChangeW) 30, 5, _clip pChangeW.status_note 30⟩],
          0 + 1) ∧
      statusChanged oW pShipW = false ∧
      (orderDetailPatch oW [] 0 pShipW 5).2.1 = [] ∧
      (orderDetailPatch oW [] 0 pShipW 5).1.orders_status = oW.orders_status ∧
      (patchedOrder oW pShipW).orders_shipped_at = pShipW.shipped_at.getD oW.orders_shipped_at := by
  have hc1 : statusChanged oW pChangeW = true := by
    simp [statusChanged, oW, pChangeW, pyStrip, clipString, pySlice, pyLen]
  have hc2 : statusChanged oW pShipW = false := by
    simp [statusChanged, oW, pShipW]
  have h3 := claim_C6_status_update.2.2.1 oW [] 0 pShipW 5 hc2
  exact ⟨hc1, claim_C6_status_update.2.1 oW [] 0 pChangeW 5 hc1, hc2, h3.1, h3.2,
    (claim_C6_status_update.2.2.2 oW pShipW).1⟩

/-- C7: History append-only and count.  Order creation appends exactly
one history entry for the new order to the unchanged prior table; a
partial update appends a tail of length 1 when the status changed and 0
otherwise, never touching prior entries; over any sequence of partial
updates the entry count grows by exactly the number of effective status
changes (so it is 1 from creation plus that number); and serialization
lists the history of an order sorted by entry id ascending, as a
permutation of exactly the entries of that order. -/
theorem claim_C7_history_append_only :
    (∀ (db : Db) (p : OrderPayload) (now nd oid : Nat),
        (ordersPost db p now nd).2 = .ok oid →
        ∃ entry, (ordersPost db p now nd).1.history = db.history ++ [entry] ∧
          entry.orders = db.nextOrdersId) ∧
    (∀ (o : Orders) (h : List OrderStatusHistory) (nid : Nat) (p : PatchPayload) (now : Nat),
        ∃ tail, (orderDetailPatch o h nid p now).2.1 = h ++ tail ∧
          tail.length = if statusChanged o p = true then 1 else 0) ∧
    (∀ (ps : List (PatchPayload × Nat)) (o : Orders) (h : List OrderStatusHistory) (nid : Nat),
        (applyPatchList (o, h, nid) ps).2.1.length = h.length + numStatusChanges o ps) ∧
    (∀ (hist : List OrderStatusHistory) (oid : Nat),
        (serializeStatusHistory hist oid).Pairwise
            (fun a b => a.order_status_history_id ≤ b.order_status_history_id) ∧
          (serializeStatusHistory hist oid).Perm
            (hist.filter (fun e0 => e0.orders == oid))) := by
  refine ⟨?_, ?_, applyPatchList_hist_length, serializeStatusHistory_spec⟩
  · intro db p now nd oid h
    obtain ⟨entry, h1, h2, _, _⟩ := ordersPost_ok_history db p now nd oid h
    exact ⟨entry, h1, h2⟩
  · intro o h nid p now
    by_cases hc : statusChanged o p = true
    · refine ⟨[⟨nid, o.orders_id, clipString o.orders_status 30,
        clipString (newStatusOf o p) 30, now, _clip p.status_note 30⟩], ?_, by simp [hc]⟩
      rw [orderDetailPatch_changed o h nid p now hc]
    · have hc' : statusChanged o p = false := by simpa using hc
      refine ⟨[], ?_, by simp [hc']⟩
      rw [orderDetailPatch_unchanged o h nid p now hc']
      simp

/-- C7 witness: the successful concrete order creation appends exactly
one entry for order 1 to the empty history table. -/
theorem claim_C7_history_append_only_witness :
    (ordersPost dbW payloadOkW 9 20).2 = .ok 1 ∧
      ∃ entry, (ordersPost dbW payloadOkW 9 20).1.history = dbW.history ++ [entry] ∧
        entry.orders = dbW.nextOrdersId := by
  have hok : (ordersPost dbW payloadOkW 9 20).2 = .ok 1 := by
    simp [ordersPost, ordersTxn, ordersTxnStart, ordersTxnOrder, statusValueOrders, orDefault,
      pyStrip, pySlice, pyLen, clipString, _clip, processItems, lookupSeries, addOrdersItem,
      applyAllocate, allocate, clientStocks, publicStocks, sumCount, drawDown, writeBack,
      addHistory, dbW, payloadOkW, ledW, List.filter]
    norm_num
  exact ⟨hok, claim_C7_history_append_only.1 dbW payloadOkW 9 20 1 hok⟩

/-- C8: Series-less line bypass.  An order line without a series
reference is processed by creating its OrderLine row (with product and
quantity) and simply continuing with the rest — it reads, checks and
decrements no stock record and is not treated as an error — in both the
order-creation and the cart-checkout loops. -/
theorem claim_C8_seriesless :
    (∀ (db : Db) (c oid now : Nat) (it : RawItem) (rest : List RawItem),
        it.malformed = false → ¬ it.quantity ≤ 0 → it.product_id ∈ db.products →
        it.series_id = none →
        processItems c oid now db (it :: rest) =
          processItems c oid now (addOrdersItem db oid it.product_id none it.quantity) rest) ∧
    (∀ (db : Db) (oid pid : Nat) (sid : Option Nat) (qty : Int),
        (addOrdersItem db oid pid sid qty).stocks = db.stocks ∧
        (addOrdersItem db oid pid sid qty).ordersItems =
          db.ordersItems ++ [⟨db.nextItemId, oid, pid, sid, qty⟩]) ∧
    (∀ (db : Db) (c oid now : Nat) (it : RawItem),
        it.malformed = false → ¬ it.quantity ≤ 0 → it.product_id ∈ db.products →
        it.series_id = none →
        (processItems c oid now db [it]).err = none ∧
          (processItems c oid now db [it]).rollback = false ∧
          (processItems c oid now db [it]).db.stocks = db.stocks) ∧
    (∀ (db : Db) (c oid now : Nat) (it : CartItem) (rest : List CartItem),
        it.series = none →
        processCartItems c oid now db (it :: rest) =
          processCartItems c oid now
            (addOrdersItem db oid it.product none it.cart_item_quantity) rest) := by
  refine ⟨?_, ?_, ?_, ?_⟩
  · intro db c oid now it rest h1 h2 h3 h4
    simp [processItems, h1, h2, h3, h4]
  · intro db oid pid sid qty
    exact ⟨rfl, rfl⟩
  · intro db c oid now it h1 h2 h3 h4
    simp [processItems, h1, h2, h3, h4, addOrdersItem_stocks]
  · intro db c oid now it rest hs
    simp [processCartItems, hs]

/-- C8 witness: a concrete series-less line in `dbW` creates its order
line, errors nothing, and leaves the stock ledger untouched. -/
theorem claim_C8_seriesless_witness :
    ((⟨false, 4, 2, none⟩ : RawItem).malformed = false ∧
        ¬ (⟨false, 4, 2, none⟩ : RawItem).quantity ≤ 0 ∧
        (⟨false, 4, 2, none⟩ : RawItem).product_id ∈ dbW.products ∧
        (⟨false, 4, 2, none⟩ : RawItem).series_id = none) ∧
      (processItems 2 1 9 dbW [⟨false, 4, 2, none⟩]).err = none ∧
      (processItems 2 1 9 dbW [⟨false, 4, 2, none⟩]).rollback = false ∧
      (processItems 2 1 9 dbW [⟨false, 4, 2, none⟩]).db.stocks = dbW.stocks := by
  have h1 : (⟨false, 4, 2, none⟩ : RawItem).malformed = false := rfl
  have h2 : ¬ (⟨false, 4, 2, none⟩ : RawItem).quantity ≤ 0 := by norm_num
  have h3 : (⟨false, 4, 2, none⟩ : RawItem).product_id ∈ dbW.products := by simp [dbW]
  have h4 : (⟨false, 4, 2, none⟩ : RawItem).series_id = none := rfl
  obtain ⟨g1, g2, g3⟩ := claim_C8_seriesless.2.2.1 dbW 2 1 9 ⟨false, 4, 2, none⟩ h1 h2 h3 h4
  exact ⟨⟨h1, h2, h3, h4⟩, g1, g2, g3⟩

/-- C10: Blank or over-long status on update.  A supplied status is
first stripped and clipped to 30 characters; when the result is empty or
equals the current status, the order keeps its prior status and no
history entry is appended — a whitespace-only status, or a long status
whose first 30 characters match the current one, is a no-op. -/
theorem claim_C10_blank_or_long_status (o : Orders) (h : List OrderStatusHistory)
    (nid : Nat) (p : PatchPayload) (now : Nat) (s : String) (hs : p.status = some s)
    (hcond : clipString (pyStrip s) 30 = "" ∨ clipString (pyStrip s) 30 = o.orders_status) :
    (orderDetailPatch o h nid p now).1.orders_status = o.orders_status ∧
      (orderDetailPatch o h nid p now).2.1 = h := by
  have hc : statusChanged o p = false := by
    unfold statusChanged
    rw [hs]
    rcases hcond with hcond | hcond <;> simp [hcond]
  rw [orderDetailPatch_unchanged o h nid p now hc]
  exact ⟨by simp [patchedOrder, newStatusOf_of_unchanged o p hc], rfl⟩

/-- C10 witness: the whitespace-only status on the `pending` order and
the 35-character status whose first 30 characters equal the status of
`oLongW` are both no-ops. -/
theorem claim_C10_blank_or_long_status_witness :
    (pBlankW.status = some "   " ∧ clipString (pyStrip "   ") 30 = "" ∧
        (orderDetailPatch oW [⟨0, 1, "a", "b", 1, none⟩] 1 pBlankW 5).1.orders_status =
          oW.orders_status ∧
        (orderDetailPatch oW [⟨0, 1, "a", "b", 1, none⟩] 1 pBlankW 5).2.1 =
          [⟨0, 1, "a", "b", 1, none⟩]) ∧
      (pLongW.status = some "abcdefghijklmnopqrstuvwxyz0123extra" ∧
        clipString (pyStrip "abcdefghijklmnopqrstuvwxyz0123extra") 30 =
          oLongW.orders_status ∧
        (orderDetailPatch oLongW [] 0 pLongW 5).1.orders_status = oLongW.orders_status ∧
        (orderDetailPatch oLongW [] 0 pLongW 5).2.1 = []) := by
  have hb : clipString (pyStrip "   ") 30 = "" := by decide
  have hl : clipString (pyStrip "abcdefghijklmnopqrstuvwxyz0123extra") 30 =
      oLongW.orders_status := by decide
  obtain ⟨g1, g2⟩ := claim_C10_blank_or_long_status oW [⟨0, 1, "a", "b", 1, none⟩] 1 pBlankW 5
    "   " rfl (Or.inl hb)
  obtain ⟨g3, g4⟩ := claim_C10_blank_or_long_status oLongW [] 0 pLongW 5
    "abcdefghijklmnopqrstuvwxyz0123extra" rfl (Or.inr hl)
  exact ⟨⟨rfl, hb, g1, g2⟩, ⟨rfl, hl, g3, g4⟩⟩
